import Mathlib

/-!
Verification of a Chip-8 CPU emulator.

This file gives a shallow embedding of the emulator's core (`bit_math.py` and
`cpu.py`) and proves properties of its instruction semantics.

Modelling conventions:
* Python integers are modelled as `ℤ`.  Python's `x & (2^k - 1)` on integers
  equals `x % 2^k` (mathematical mod) and `x >> k` equals floor division by
  `2^k`; since Lean's `%` and `/` on `ℤ` are Euclidean, which agrees with
  floor for positive divisors, masks and shifts are embedded as `% 2^k` and
  `/ 2^k`.  Irreducibly bitwise operations (`|`, `&`, `^` between two general
  values) are embedded with `Int.lor`, `Int.land`, `Int.xor`.
* Python lists are `List ℤ` (the display, a 2-D numpy array indexed
  `display[x][y]`, is `List (List ℤ)`; its cells only ever hold 0 or 1, so
  the `int(...)` conversions in the source are identities).  Indexing follows
  Python semantics: a negative index counts from the end, and an index out of
  range raises `IndexError`.  Slice assignment (used by the BCD store)
  replaces the clamped slice and may change the list's length, exactly as in
  Python.
* Failures (`KeyError` from dictionary dispatch, `IndexError`, `ValueError`)
  are modelled with `Except PyErr`; a failing step aborts and surfaces the
  error to the caller.
* Wall-clock time (`time.time()`) is modelled as an explicit `ℚ`-valued
  argument `now` to a step, and the random byte drawn by `randint(0, 255)` as
  an explicit argument `rnd`.
* `settings.py` is not part of the sources; `WIDTH` and `HEIGHT` are left as
  explicit parameters `W` `H` of the functions that use them.
-/

/-! ### Python list primitives -/

/-- Error raised by a failing step: `keyError k` models a Python `KeyError`
on a dictionary dispatch with unmatched key `k`; `indexError` an
out-of-range list access; `valueError` a failed string-to-int conversion. -/
inductive PyErr : Type
  | keyError (key : ℤ)
  | indexError
  | valueError
deriving DecidableEq

/-- Python index normalisation: a negative index counts from the end of a
list of length `n`; the result is the effective index, or `none` when the
access raises `IndexError`. -/
def pyIdx (n : ℕ) (i : ℤ) : Option ℕ :=
  let j := if i < 0 then i + n else i
  if 0 ≤ j ∧ j < n then some j.toNat else none

/-- Python `l[i]` for reading: `IndexError` out of range. -/
def getIdx {α : Type} [Inhabited α] (l : List α) (i : ℤ) : Except PyErr α :=
  match pyIdx l.length i with
  | some j => .ok (l.getD j default)
  | none => .error .indexError

/-- Python `l[i] = v`: `IndexError` out of range. -/
def setIdx {α : Type} (l : List α) (i : ℤ) (v : α) : Except PyErr (List α) :=
  match pyIdx l.length i with
  | some j => .ok (l.set j v)
  | none => .error .indexError

/-- Python slice bound normalisation for a list of length `n`: negative
bounds count from the end, then the bound is clamped to `[0, n]`. -/
def pySliceBound (n : ℕ) (i : ℤ) : ℕ :=
  (min (n : ℤ) (max 0 (if i < 0 then i + n else i))).toNat

/-- Python `l[a:b] = xs` for lists: replaces the (clamped) slice by `xs`,
growing or shrinking the list as needed.  Never raises. -/
def setSlice {α : Type} (l : List α) (a b : ℤ) (xs : List α) : List α :=
  let a' := pySliceBound l.length a
  let b' := max a' (pySliceBound l.length b)
  l.take a' ++ xs ++ l.drop b'

/-! ### `bit_math.py` -/

namespace bm

/-- `bit_math.add`: width-masked sum and carry flag.
Source: `mask = (2 ** num_bits) - 1; return (x + y) & mask, (x + y) > mask`. -/
def add (num_bits : ℕ) (x y : ℤ) : ℤ × Bool :=
  let mask : ℤ := 2 ^ num_bits - 1
  ((x + y) % (mask + 1), decide (x + y > mask))

/-- `bit_math.sub`: width-masked difference and no-borrow flag.
Source: `mask = (2 ** num_bits) - 1; return (x - y) & mask, (x - y) >= 0`. -/
def sub (num_bits : ℕ) (x y : ℤ) : ℤ × Bool :=
  let mask : ℤ := 2 ^ num_bits - 1
  ((x - y) % (mask + 1), decide (x - y ≥ 0))

/-- `bit_math.extract_bit`: the bit of `val` at position `place`.
Source: `mask = (2 ** (place + 1)) - 1; return (val & mask) >> place`. -/
def extract_bit (place : ℕ) (val : ℤ) : ℤ :=
  (val % 2 ^ (place + 1)) / 2 ^ place

end bm

/-! ### Machine state (`cpu.py`, class `Cpu`) -/

/-- The mutable state of `cpu.py`'s `Cpu` object.  The display is the numpy
array `np.zeros((WIDTH, HEIGHT))`, indexed `display[x][y]`. -/
structure Cpu : Type where
  memory : List ℤ
  opcode : ℤ
  V : List ℤ
  I : ℤ
  delay_timer : ℤ
  sound_timer : ℤ
  last_timer_decrement : ℚ
  pc : ℤ
  stack : List ℤ
  sp : ℤ
  keypad : List ℤ
  display : List (List ℤ)
  draw_flag : Bool
deriving DecidableEq

namespace Cpu

/-- Fresh interpreter state (`Cpu.__init__`), at start time `t0`. -/
def init (W H : ℕ) (t0 : ℚ) : Cpu where
  memory := List.replicate 4096 0
  opcode := 0
  V := List.replicate 16 0
  I := 0
  delay_timer := 0
  sound_timer := 0
  last_timer_decrement := t0
  pc := 0x200
  stack := List.replicate 16 0
  sp := 0
  keypad := List.replicate 16 0
  display := List.replicate W (List.replicate H 0)
  draw_flag := false

/-- `00E0 - Clear display`. -/
def clear_display (W H : ℕ) (s : Cpu) : Cpu :=
  { s with display := List.replicate W (List.replicate H 0) }

/-- `00EE - Return from subroutine`: `pc = stack[sp - 1]; sp -= 1`. -/
def return_from_subroutine (s : Cpu) : Except PyErr Cpu := do
  let v ← getIdx s.stack (s.sp - 1)
  .ok { s with pc := v, sp := s.sp - 1 }

/-- Decodes clear and return opcodes (MSB of 0); any other 0-family word
falls through both `if`s and leaves the state untouched. -/
def clear_or_return (W H : ℕ) (s : Cpu) : Except PyErr Cpu := do
  let s := if s.opcode = 0x00E0 then clear_display W H s else s
  if s.opcode = 0x00EE then return_from_subroutine s else .ok s

/-- `1NNN - Jumps to address NNN`. -/
def jump_to_address (s : Cpu) : Except PyErr Cpu :=
  .ok { s with pc := s.opcode % 0x1000 }

/-- `2NNN - Calls subroutine NNN`: `stack[sp] = pc; sp += 1; pc = nnn`. -/
def jump_to_subroutine (s : Cpu) : Except PyErr Cpu := do
  let st ← setIdx s.stack s.sp s.pc
  .ok { s with stack := st, sp := s.sp + 1, pc := s.opcode % 0x1000 }

/-- `3XNN - Skips next instruction if VX == NN`. -/
def skip_if_reg_equal_val (s : Cpu) : Except PyErr Cpu := do
  let reg := s.opcode % 0x1000 / 0x100
  let val := s.opcode % 0x100
  let v ← getIdx s.V reg
  .ok (if v = val then { s with pc := s.pc + 2 } else s)

/-- `4XNN - Skips next instruction if VX != NN`. -/
def skip_if_reg_not_equal_val (s : Cpu) : Except PyErr Cpu := do
  let reg := s.opcode % 0x1000 / 0x100
  let val := s.opcode % 0x100
  let v ← getIdx s.V reg
  .ok (if v ≠ val then { s with pc := s.pc + 2 } else s)

/-- `5XY0 - Skips next instruction if VX == VY`. -/
def skip_if_reg_equal_reg (s : Cpu) : Except PyErr Cpu := do
  let reg_x := s.opcode % 0x1000 / 0x100
  let reg_y := s.opcode % 0x100 / 0x10
  let vx ← getIdx s.V reg_x
  let vy ← getIdx s.V reg_y
  .ok (if vx = vy then { s with pc := s.pc + 2 } else s)

/-- `6XNN - Sets VX to NN`. -/
def move_val_to_reg (s : Cpu) : Except PyErr Cpu := do
  let reg := s.opcode % 0x1000 / 0x100
  let val := s.opcode % 0x100
  let V' ← setIdx s.V reg val
  .ok { s with V := V' }

/-- `7XNN - Adds NN to VX (VF unchanged)`. -/
def add_val_to_reg (s : Cpu) : Except PyErr Cpu := do
  let reg := s.opcode % 0x1000 / 0x100
  let val := s.opcode % 0x100
  let v ← getIdx s.V reg
  let V' ← setIdx s.V reg (bm.add 8 v val).1
  .ok { s with V := V' }

/-- `8XY0 - Sets VX to VY`. -/
def move_reg_into_reg (x y : ℤ) (s : Cpu) : Except PyErr Cpu := do
  let vy ← getIdx s.V y
  let V' ← setIdx s.V x vy
  .ok { s with V := V' }

/-- `8XY1 - Sets VX to VX | VY`. -/
def or_reg_into_reg (x y : ℤ) (s : Cpu) : Except PyErr Cpu := do
  let vx ← getIdx s.V x
  let vy ← getIdx s.V y
  let V' ← setIdx s.V x (Int.lor vx vy)
  .ok { s with V := V' }

/-- `8XY2 - Sets VX to VX & VY`. -/
def and_reg_into_reg (x y : ℤ) (s : Cpu) : Except PyErr Cpu := do
  let vx ← getIdx s.V x
  let vy ← getIdx s.V y
  let V' ← setIdx s.V x (Int.land vx vy)
  .ok { s with V := V' }

/-- `8XY3 - Sets VX to VX ^ VY`. -/
def xor_reg_into_reg (x y : ℤ) (s : Cpu) : Except PyErr Cpu := do
  let vx ← getIdx s.V x
  let vy ← getIdx s.V y
  let V' ← setIdx s.V x (Int.xor vx vy)
  .ok { s with V := V' }

/-- `8XY4 - Sets VX to VX + VY. VF set if carry occurs`.  The tuple
assignment writes `V[x]` first, then `V[0xF]` (the Python bool flag has
numeric value 1 or 0). -/
def add_reg_into_reg (x y : ℤ) (s : Cpu) : Except PyErr Cpu := do
  let vx ← getIdx s.V x
  let vy ← getIdx s.V y
  let r := bm.add 8 vx vy
  let V' ← setIdx s.V x r.1
  let V'' ← setIdx V' 0xF (if r.2 then 1 else 0)
  .ok { s with V := V'' }

/-- `8XY5 - Sets VX to VX - VY. VF set if no borrow occurs`. -/
def sub_reg_into_reg (x y : ℤ) (s : Cpu) : Except PyErr Cpu := do
  let vx ← getIdx s.V x
  let vy ← getIdx s.V y
  let r := bm.sub 8 vx vy
  let V' ← setIdx s.V x r.1
  let V'' ← setIdx V' 0xF (if r.2 then 1 else 0)
  .ok { s with V := V'' }

/-- `8XY6 - Stores LSB of VX in VF then shifts VX to the right by 1`.
The shift re-reads `V[x]` after the flag write, as the source does. -/
def right_shift_reg (x y : ℤ) (s : Cpu) : Except PyErr Cpu := do
  let vx ← getIdx s.V x
  let V' ← setIdx s.V 0xF (vx % 2)
  let vx' ← getIdx V' x
  let V'' ← setIdx V' x (vx' / 2)
  .ok { s with V := V'' }

/-- `8XY7 - Sets VX to VY - VX. VF set if no borrow occurs`. -/
def rsub_reg_into_reg (x y : ℤ) (s : Cpu) : Except PyErr Cpu := do
  let vx ← getIdx s.V x
  let vy ← getIdx s.V y
  let r := bm.sub 8 vy vx
  let V' ← setIdx s.V x r.1
  let V'' ← setIdx V' 0xF (if r.2 then 1 else 0)
  .ok { s with V := V'' }

/-- `8XYE - Stores MSB of VX in VF then shifts VX to the left by 1`
(`(V[x] & 0x80) >> 7` is the bit of `V[x]` at position 7; the result is
masked with `0xFF`). -/
def left_shift_reg (x y : ℤ) (s : Cpu) : Except PyErr Cpu := do
  let vx ← getIdx s.V x
  let V' ← setIdx s.V 0xF (vx / 0x80 % 2)
  let vx' ← getIdx V' x
  let V'' ← setIdx V' x (vx' * 2 % 0x100)
  .ok { s with V := V'' }

/-- Decodes arithmetic opcodes (MSB of 8): dictionary dispatch on the low
nibble; an unmatched key raises `KeyError`. -/
def arithmetic_operation (s : Cpu) : Except PyErr Cpu :=
  let operation := s.opcode % 0x10
  let x := s.opcode % 0x1000 / 0x100
  let y := s.opcode % 0x100 / 0x10
  if operation = 0x0 then move_reg_into_reg x y s
  else if operation = 0x1 then or_reg_into_reg x y s
  else if operation = 0x2 then and_reg_into_reg x y s
  else if operation = 0x3 then xor_reg_into_reg x y s
  else if operation = 0x4 then add_reg_into_reg x y s
  else if operation = 0x5 then sub_reg_into_reg x y s
  else if operation = 0x6 then right_shift_reg x y s
  else if operation = 0x7 then rsub_reg_into_reg x y s
  else if operation = 0xE then left_shift_reg x y s
  else .error (.keyError operation)

/-- `9XY0 - Skips next instruction if VX != VY`. -/
def skip_if_reg_not_equal_reg (s : Cpu) : Except PyErr Cpu := do
  let reg_x := s.opcode % 0x1000 / 0x100
  let reg_y := s.opcode % 0x100 / 0x10
  let vx ← getIdx s.V reg_x
  let vy ← getIdx s.V reg_y
  .ok (if vx ≠ vy then { s with pc := s.pc + 2 } else s)

/-- `ANNN - Sets I to NNN`. -/
def load_index_reg_with_val (s : Cpu) : Except PyErr Cpu :=
  .ok { s with I := s.opcode % 0x1000 }

/-- `BNNN - Jumps to V0 + NNN` (12-bit add, overflow bit discarded). -/
def jump_to_address_plus_reg (s : Cpu) : Except PyErr Cpu := do
  let address := s.opcode % 0x1000
  let v0 ← getIdx s.V 0
  .ok { s with pc := (bm.add 12 address v0).1 }

/-- `CXNN - Sets VX to bitwise and of NN and random number (0 to 255)`;
the drawn byte is the explicit argument `rnd`. -/
def generate_random_number (rnd : ℤ) (s : Cpu) : Except PyErr Cpu := do
  let reg := s.opcode % 0x1000 / 0x100
  let val := s.opcode % 0x100
  let V' ← setIdx s.V reg (Int.land rnd val)
  .ok { s with V := V' }

/-- One inner-loop iteration of `display_sprite` for offsets `(dy, dx)`:
read the target cell, read the sprite bit, set `V[0xF]` on collision, and
XOR the bit into the cell. -/
def draw_pixel (W H : ℕ) (col row I_reg : ℤ) (mem : List ℤ)
    (acc : List ℤ × List (List ℤ)) (p : ℕ × ℕ) :
    Except PyErr (List ℤ × List (List ℤ)) := do
  let x := (col + p.2) % (W : ℤ)
  let y := (row + p.1) % (H : ℤ)
  let dcol ← getIdx acc.2 x
  let c ← getIdx dcol y
  let byte ← getIdx mem (I_reg + p.1)
  let b := bm.extract_bit (7 - p.2) byte
  let V' ← if c = 1 ∧ b = 1 then setIdx acc.1 0xF 1 else .ok acc.1
  let dcol' ← setIdx dcol y (Int.xor c b)
  let d' ← setIdx acc.2 x dcol'
  .ok (V', d')

/-- The row-major sequence of `(dy, dx)` offsets visited by the nested
loops of `display_sprite`. -/
def sprite_offsets (height : ℕ) : List (ℕ × ℕ) :=
  (List.range height).flatMap fun dy => (List.range 8).map fun dx => (dy, dx)

/-- `DXYN - Draws a sprite at coordinate (VX, VY) of width 8 pixels and
height N`.  `V[0xF]` is zeroed first, then each sprite bit is XORed into
the display with wraparound; finally the draw flag is raised. -/
def display_sprite (W H : ℕ) (s : Cpu) : Except PyErr Cpu := do
  let V0 ← setIdx s.V 0xF 0
  let col ← getIdx V0 (s.opcode % 0x1000 / 0x100)
  let row ← getIdx V0 (s.opcode % 0x100 / 0x10)
  let height := (s.opcode % 0x10).toNat
  let r ← (sprite_offsets height).foldlM (draw_pixel W H col row s.I s.memory)
    (V0, s.display)
  .ok { s with V := r.1, display := r.2, draw_flag := true }

/-- `EX9E - Skips next instruction if key with value VX is pressed`. -/
def skip_if_key_pressed (key : ℤ) (s : Cpu) : Except PyErr Cpu := do
  let k ← getIdx s.keypad key
  .ok (if k ≠ 0 then { s with pc := s.pc + 2 } else s)

/-- `EXA1 - Skips next instruction if key with value VX is not pressed`. -/
def skip_if_key_not_pressed (key : ℤ) (s : Cpu) : Except PyErr Cpu := do
  let k ← getIdx s.keypad key
  .ok (if k = 0 then { s with pc := s.pc + 2 } else s)

/-- Decodes keypad opcodes (MSB of E) on the low byte; a word that is
neither `EX9E` nor `EXA1` falls through both `if`s untouched. -/
def key_operation (s : Cpu) : Except PyErr Cpu := do
  let operation := s.opcode % 0x100
  let reg := s.opcode % 0x1000 / 0x100
  if operation = 0x9E then do
    let v ← getIdx s.V reg
    skip_if_key_pressed v s
  else if operation = 0xA1 then do
    let v ← getIdx s.V reg
    skip_if_key_not_pressed v s
  else .ok s

/-- `FX07 - Sets VX to delay timer`. -/
def move_delay_timer_into_reg (reg : ℤ) (s : Cpu) : Except PyErr Cpu := do
  let V' ← setIdx s.V reg s.delay_timer
  .ok { s with V := V' }

/-- `FX0A - Waits for keypress and stores it in register VX` — the handler
body is `pass`: a no-op. -/
def wait_for_keypress (reg : ℤ) (s : Cpu) : Except PyErr Cpu :=
  .ok s

/-- `FX15 - Sets delay timer to VX`. -/
def move_reg_into_delay_timer (reg : ℤ) (s : Cpu) : Except PyErr Cpu := do
  let v ← getIdx s.V reg
  .ok { s with delay_timer := v }

/-- `FX18 - Sets sound timer to VX`. -/
def move_reg_into_sound_timer (reg : ℤ) (s : Cpu) : Except PyErr Cpu := do
  let v ← getIdx s.V reg
  .ok { s with sound_timer := v }

/-- `FX1E - Sets I to I + VX. VF set if range overflow occurs` (tuple
assignment: `I` first, then `V[0xF]`). -/
def add_reg_into_index (reg : ℤ) (s : Cpu) : Except PyErr Cpu := do
  let v ← getIdx s.V reg
  let r := bm.add 12 s.I v
  let V' ← setIdx s.V 0xF (if r.2 then 1 else 0)
  .ok { s with I := r.1, V := V' }

/-- `FX29 - Sets I to the location of the sprite for the character in VX`. -/
def load_index_with_reg_sprite (reg : ℤ) (s : Cpu) : Except PyErr Cpu := do
  let v ← getIdx s.V reg
  .ok { s with I := 0x050 + 5 * v }

/-- Decimal digit list of `n` (big-endian), as produced by `str(n)` for
`n ≥ 1`; the recursion is driven by a fuel argument for structural
termination. -/
def dec_digits : ℕ → ℕ → List ℤ
  | 0, _ => []
  | fuel + 1, n => if n = 0 then [] else dec_digits fuel (n / 10) ++ [((n % 10 : ℕ) : ℤ)]

/-- The digit list of `str(v).zfill(3)` for a nonnegative value `v`:
decimal digits, left-padded with zeros to at least three entries. -/
def zfill3_digits (n : ℕ) : List ℤ :=
  let ds := if n = 0 then [0] else dec_digits n n
  List.replicate (3 - ds.length) 0 ++ ds

/-- `FX33 - Sets I to the binary-coded decimal of VX`: the digits of
`str(V[reg]).zfill(3)` are written by slice assignment
`memory[I : I + 3] = digits` (which can change the length of `memory`).
A negative register value would make `int(d)` fail on the sign character. -/
def store_bcd_into_memory (reg : ℤ) (s : Cpu) : Except PyErr Cpu := do
  let v ← getIdx s.V reg
  if v < 0 then .error .valueError
  else .ok { s with memory := setSlice s.memory s.I (s.I + 3) (zfill3_digits v.toNat) }

/-- `FX55 - Stores V0 to VX (including VX) in memory starting at address I`. -/
def store_regs_into_memory (reg : ℤ) (s : Cpu) : Except PyErr Cpu := do
  let mem' ← (List.range (reg.toNat + 1)).foldlM (fun (m : List ℤ) (i : ℕ) => do
    let v ← getIdx s.V (i : ℤ)
    setIdx m (s.I + (i : ℤ)) v) s.memory
  .ok { s with memory := mem' }

/-- `FX65 - Fills V0 to VX (including VX) with values from memory starting
at address I`. -/
def load_memory_into_regs (reg : ℤ) (s : Cpu) : Except PyErr Cpu := do
  let V' ← (List.range (reg.toNat + 1)).foldlM (fun (vs : List ℤ) (i : ℕ) => do
    let v ← getIdx s.memory (s.I + (i : ℤ))
    setIdx vs (i : ℤ) v) s.V
  .ok { s with V := V' }

/-- Decodes miscellaneous opcodes (MSB of F): dictionary dispatch on the
low byte; an unmatched key raises `KeyError`. -/
def misc_operation (s : Cpu) : Except PyErr Cpu :=
  let operation := s.opcode % 0x100
  let reg := s.opcode % 0x1000 / 0x100
  if operation = 0x07 then move_delay_timer_into_reg reg s
  else if operation = 0x0A then wait_for_keypress reg s
  else if operation = 0x15 then move_reg_into_delay_timer reg s
  else if operation = 0x18 then move_reg_into_sound_timer reg s
  else if operation = 0x1E then add_reg_into_index reg s
  else if operation = 0x29 then load_index_with_reg_sprite reg s
  else if operation = 0x33 then store_bcd_into_memory reg s
  else if operation = 0x55 then store_regs_into_memory reg s
  else if operation = 0x65 then load_memory_into_regs reg s
  else .error (.keyError operation)

/-- `decrement_timers`: if at least `1/60` seconds of wall-clock time have
passed since the last recorded decrement, decrement each nonzero timer by
one and record `now`. -/
def decrement_timers (s : Cpu) (now : ℚ) : Cpu :=
  if now - s.last_timer_decrement ≥ 1 / 60 then
    { s with
      delay_timer := if s.delay_timer > 0 then s.delay_timer - 1 else s.delay_timer
      sound_timer := if s.sound_timer > 0 then s.sound_timer - 1 else s.sound_timer
      last_timer_decrement := now }
  else s

/-- The top-level family dispatch of `execute_cycle`: the dictionary
`operation_lookup` has the sixteen keys `0x0`–`0xF`. -/
def dispatch (W H : ℕ) (now : ℚ) (rnd : ℤ) (operation : ℤ) (s : Cpu) :
    Except PyErr Cpu :=
  if operation = 0x0 then clear_or_return W H s
  else if operation = 0x1 then jump_to_address s
  else if operation = 0x2 then jump_to_subroutine s
  else if operation = 0x3 then skip_if_reg_equal_val s
  else if operation = 0x4 then skip_if_reg_not_equal_val s
  else if operation = 0x5 then skip_if_reg_equal_reg s
  else if operation = 0x6 then move_val_to_reg s
  else if operation = 0x7 then add_val_to_reg s
  else if operation = 0x8 then arithmetic_operation s
  else if operation = 0x9 then skip_if_reg_not_equal_reg s
  else if operation = 0xA then load_index_reg_with_val s
  else if operation = 0xB then jump_to_address_plus_reg s
  else if operation = 0xC then generate_random_number rnd s
  else if operation = 0xD then display_sprite W H s
  else if operation = 0xE then key_operation s
  else if operation = 0xF then misc_operation s
  else .error (.keyError operation)

/-- `execute_cycle` (one `step`): fetch the big-endian instruction word at
`pc`, dispatch on the top nibble, apply the default `pc += 2` unless the
family was `0x1` or `0x2`, then run the timer check against `now`. -/
def execute_cycle (W H : ℕ) (s : Cpu) (now : ℚ) (rnd : ℤ) : Except PyErr Cpu := do
  let hi ← getIdx s.memory s.pc
  let lo ← getIdx s.memory (s.pc + 1)
  let s := { s with opcode := hi * 0x100 + lo }
  let operation := s.opcode / 0x1000
  let s' ← dispatch W H now rnd operation s
  let s' := if operation ≠ 0x1 ∧ operation ≠ 0x2 then { s' with pc := s'.pc + 2 } else s'
  .ok (decrement_timers s' now)

end Cpu

/-! ### Basic facts about the list primitives -/

theorem pyIdx_eq_some {n : ℕ} {i : ℤ} (h0 : 0 ≤ i) (h1 : i < n) :
    pyIdx n i = some i.toNat := by
  simp only [pyIdx]
  split_ifs <;> first | rfl | (exfalso; omega)

theorem pyIdx_lt {n : ℕ} {i : ℤ} {j : ℕ} (h : pyIdx n i = some j) : j < n := by
  simp only [pyIdx] at h
  split_ifs at h <;>
    first
      | (rcases Option.some.inj h with rfl; omega)
      | simp at h

theorem getIdx_eq {α : Type} [Inhabited α] {l : List α} {i : ℤ}
    (h0 : 0 ≤ i) (h1 : i < l.length) :
    getIdx l i = .ok (l.getD i.toNat default) := by
  simp [getIdx, pyIdx_eq_some h0 h1]

theorem setIdx_eq {α : Type} {l : List α} {i : ℤ} {v : α}
    (h0 : 0 ≤ i) (h1 : i < l.length) :
    setIdx l i v = .ok (l.set i.toNat v) := by
  simp [setIdx, pyIdx_eq_some h0 h1]

theorem pyIdx_none_of_ge {n : ℕ} {i : ℤ} (h : (n : ℤ) ≤ i) : pyIdx n i = none := by
  simp only [pyIdx]
  split_ifs <;> first | rfl | (exfalso; omega)

theorem setIdx_err_of_ge {α : Type} {l : List α} {i : ℤ} {v : α}
    (h : (l.length : ℤ) ≤ i) : setIdx l i v = .error .indexError := by
  simp [setIdx, pyIdx_none_of_ge h]

theorem getIdx_mem {α : Type} [Inhabited α] {l : List α} {i : ℤ} {v : α}
    (h : getIdx l i = .ok v) : v ∈ l := by
  simp only [getIdx] at h
  cases hp : pyIdx l.length i with
  | none => rw [hp] at h; cases h
  | some j =>
      rw [hp] at h
      rcases Except.ok.inj h with rfl
      have := pyIdx_lt hp
      rw [List.getD_eq_getElem _ _ this]
      exact List.getElem_mem _

theorem setIdx_length {α : Type} {l l' : List α} {i : ℤ} {v : α}
    (h : setIdx l i v = .ok l') : l'.length = l.length := by
  simp only [setIdx] at h
  cases hp : pyIdx l.length i with
  | none => rw [hp] at h; cases h
  | some j =>
      rw [hp] at h
      rcases Except.ok.inj h with rfl
      exact List.length_set ..

theorem setIdx_forall {α : Type} {l l' : List α} {i : ℤ} {v : α} {P : α → Prop}
    (h : setIdx l i v = .ok l') (hl : ∀ a ∈ l, P a) (hv : P v) :
    ∀ a ∈ l', P a := by
  simp only [setIdx] at h
  cases hp : pyIdx l.length i with
  | none => rw [hp] at h; cases h
  | some j =>
      rw [hp] at h
      rcases Except.ok.inj h with rfl
      intro a ha
      rcases List.mem_or_eq_of_mem_set ha with h | rfl
      · exact hl a h
      · exact hv

/-! ### C5: the bit-arithmetic helper laws -/

/-- C5: for all 8-bit values `a` and `b`, `add(8,a,b)` returns
`((a+b) mod 256, (a+b) > 255)` and `sub(8,a,b)` returns
`((a-b) mod 256, (a-b) >= 0)`; the same law holds at width 12 with
modulus 4096.  (The helpers are Lean functions of their arguments alone,
hence pure.) -/
theorem bm_add_sub_laws (a b : ℤ) :
    (0 ≤ a → a ≤ 255 → 0 ≤ b → b ≤ 255 →
      bm.add 8 a b = ((a + b) % 256, decide (a + b > 255)) ∧
      bm.sub 8 a b = ((a - b) % 256, decide (a - b ≥ 0))) ∧
    (0 ≤ a → a ≤ 4095 → 0 ≤ b → b ≤ 4095 →
      bm.add 12 a b = ((a + b) % 4096, decide (a + b > 4095)) ∧
      bm.sub 12 a b = ((a - b) % 4096, decide (a - b ≥ 0))) := by
  refine ⟨fun _ _ _ _ => ⟨?_, ?_⟩, fun _ _ _ _ => ⟨?_, ?_⟩⟩ <;>
    simp [bm.add, bm.sub] <;> norm_num

/-- C5 witness: the laws evaluated at concrete inputs. -/
theorem bm_add_sub_laws_val :
    bm.add 8 250 10 = (4, true) ∧ bm.sub 8 3 4 = (255, false) ∧
    bm.add 12 4095 1 = (0, true) ∧ bm.sub 12 4095 1 = (4094, true) := by
  refine ⟨?_, ?_, ?_, ?_⟩
  · rw [((bm_add_sub_laws 250 10).1 (by norm_num) (by norm_num) (by norm_num)
      (by norm_num)).1]; decide
  · rw [((bm_add_sub_laws 3 4).1 (by norm_num) (by norm_num) (by norm_num)
      (by norm_num)).2]; decide
  · rw [((bm_add_sub_laws 4095 1).2 (by norm_num) (by norm_num) (by norm_num)
      (by norm_num)).1]; decide
  · rw [((bm_add_sub_laws 4095 1).2 (by norm_num) (by norm_num) (by norm_num)
      (by norm_num)).2]; decide

/-! ### C2: jump-plus-register does not suppress the +2 advance -/

/-- Machine state about to execute `0xBFFE` (jump to `V0 + 0xFFE`) with
`V[0] = 0xFF`. -/
def c2_state : Cpu where
  memory := [0xBF, 0xFE]
  opcode := 0
  V := [0xFF, 0, 0, 0, 0, 0, 0, 0, 0, 0, 0, 0, 0, 0, 0, 0]
  I := 0
  delay_timer := 0
  sound_timer := 0
  last_timer_decrement := 0
  pc := 0
  stack := []
  sp := 0
  keypad := []
  display := []
  draw_flag := false

/-- C2: executing `0xBNNN` with `nnn = 0xFFE` and `V[0] = 0xFF` ends the
step with `pc = 0xFF`, which is the wrapped target `(0xFFE + 0xFF) % 4096 =
0xFD` plus the default advance of 2: `execute_cycle` only suppresses the
`pc += 2` for families `0x1` and `0x2`, not for `0xB`. -/
theorem jump_plus_reg_not_suppressed :
    (Cpu.execute_cycle 64 32 c2_state 0 0).toOption.map Cpu.pc = some 0xFF ∧
    (0xFF : ℤ) = (0xFFE + 0xFF) % 4096 + 2 ∧
    (0xFF : ℤ) ≠ (0xFFE + 0xFF) % 4096 := by with_unfolding_all decide

/-! ### C6: the BCD store grows memory past 4096 cells -/

theorem ok_bind {α β : Type} (a : α) (f : α → Except PyErr β) :
    (Except.ok a : Except PyErr α) >>= f = f a := rfl

theorem error_bind {α β : Type} (e : PyErr) (f : α → Except PyErr β) :
    (Except.error e : Except PyErr α) >>= f = .error e := rfl

/-- Machine state with a full 4096-cell memory, about to execute `0xF033`
(store BCD of `V[0]`) with `I = 0xFFF` (the last memory cell). -/
def c6_state : Cpu where
  memory := 0xF0 :: 0x33 :: List.replicate 4094 0
  opcode := 0
  V := [123, 0, 0, 0, 0, 0, 0, 0, 0, 0, 0, 0, 0, 0, 0, 0]
  I := 0xFFF
  delay_timer := 0
  sound_timer := 0
  last_timer_decrement := 0
  pc := 0
  stack := []
  sp := 0
  keypad := []
  display := []
  draw_flag := false

/-- C6: storing the BCD of `V[0] = 123` with `I = 0xFFF` does not fail;
the slice assignment `memory[I:I+3] = digits` silently grows memory from
4096 to 4098 cells instead of surfacing an address-range error. -/
theorem bcd_store_grows_memory :
    c6_state.memory.length = 4096 ∧
    (Cpu.execute_cycle 64 32 c6_state 0 0).toOption.map
      (fun s => s.memory.length) = some 4098 := by
  have hlen : c6_state.memory.length = 4096 := by
    rw [show c6_state.memory = 0xF0 :: 0x33 :: List.replicate 4094 0 from rfl,
      List.length_cons, List.length_cons, List.length_replicate]
  refine ⟨hlen, ?_⟩
  have h1 : getIdx c6_state.memory c6_state.pc = .ok 0xF0 := by
    rw [show c6_state.pc = 0 from rfl,
      getIdx_eq (by norm_num) (by rw [hlen]; norm_num)]
    rfl
  have h2 : getIdx c6_state.memory (c6_state.pc + 1) = .ok 0x33 := by
    rw [show c6_state.pc + 1 = 1 from rfl,
      getIdx_eq (by norm_num) (by rw [hlen]; norm_num)]
    rfl
  rw [Cpu.execute_cycle, h1, h2, ok_bind, ok_bind]
  have hop : (0xF0 : ℤ) * 0x100 + 0x33 = 0xF033 := by norm_num
  simp only [hop]
  norm_num [Cpu.dispatch, Cpu.misc_operation]
  have h3 : getIdx c6_state.V 0 = .ok 123 := rfl
  have hz : Cpu.zfill3_digits (Int.toNat 123) = [1, 2, 3] := by
    with_unfolding_all decide
  have hI : c6_state.I = 0xFFF := rfl
  have hlast : c6_state.last_timer_decrement = 0 := rfl
  simp only [Cpu.store_bcd_into_memory, h3, ok_bind, hI, hz]
  norm_num
  simp only [setSlice, pySliceBound, hlen]
  norm_num
  simp only [Cpu.decrement_timers, hlast]
  norm_num
  simp only [ok_bind]
  rw [if_neg (show ¬((1:ℚ)/60 ≤ -(0:ℚ)) by norm_num)]
  refine ⟨_, rfl, ?_⟩
  simp only [List.length_append, List.length_cons, List.length_take,
    List.length_drop]
  omega

/-! ### C3: stack discipline at the bounds -/

theorem getIdx_eq_neg {α : Type} [Inhabited α] {l : List α} {i : ℤ}
    (h0 : i < 0) (h1 : 0 ≤ i + l.length) :
    getIdx l i = .ok (l.getD (i + l.length).toNat default) := by
  have : pyIdx l.length i = some (i + l.length).toNat := by
    simp only [pyIdx]
    split_ifs <;> first | rfl | (exfalso; omega)
  simp [getIdx, this]

/-- Machine state about to execute `0x00EE` (return) with an empty stack
(`sp = 0`); the top slot `stack[15]` holds `0x345`. -/
def c3_state : Cpu where
  memory := [0x00, 0xEE]
  opcode := 0
  V := []
  I := 0
  delay_timer := 0
  sound_timer := 0
  last_timer_decrement := 0
  pc := 0
  stack := List.replicate 15 0 ++ [0x345]
  sp := 0
  keypad := []
  display := []
  draw_flag := false

/-- Machine state about to execute `0x2ABC` (call) with a full stack
(`sp = 16`). -/
def c3_full_state : Cpu where
  memory := [0x2A, 0xBC]
  opcode := 0
  V := []
  I := 0
  delay_timer := 0
  sound_timer := 0
  last_timer_decrement := 0
  pc := 0
  stack := List.replicate 16 0
  sp := 16
  keypad := []
  display := []
  draw_flag := false

set_option maxRecDepth 8192 in
/-- C3 counterexample: a return executed with `sp = 0` does not fail; the
step succeeds, silently reads `stack[sp-1]` as the last slot `stack[15]`
(Python index `-1`) and decrements `sp` to `-1`. -/
theorem return_underflow_is_silent :
    (Cpu.execute_cycle 64 32 c3_state 0 0).toOption.map
      (fun s => (s.sp, s.pc)) = some (-1, 0x347) := by
  with_unfolding_all decide

/-- C3 (amended): a call executed with `sp = 16` fails with an
`IndexError` surfaced to the caller, but a return executed with `sp = 0`
does not fail: it sets `pc` from `stack[15]` (Python index `-1`) and
decrements `sp` below zero, to `-1`. -/
theorem stack_bounds_behaviour (W H : ℕ) (s : Cpu) (now : ℚ) (rnd hi lo : ℤ)
    (h1 : getIdx s.memory s.pc = .ok hi)
    (h2 : getIdx s.memory (s.pc + 1) = .ok lo)
    (hstk : s.stack.length = 16) :
    (0 ≤ lo → lo < 256 → 0x20 ≤ hi → hi ≤ 0x2F → s.sp = 16 →
      Cpu.execute_cycle W H s now rnd = .error .indexError) ∧
    (hi = 0 → lo = 0xEE → s.sp = 0 →
      Cpu.execute_cycle W H s now rnd =
        .ok (Cpu.decrement_timers
          { s with opcode := 0xEE, pc := s.stack.getD 15 0 + 2, sp := -1 } now)) := by
  constructor
  · intro hlo0 hlo1 hh0 hh1 hsp
    rw [Cpu.execute_cycle, h1, h2, ok_bind, ok_bind]
    have hop : (hi * 0x100 + lo) / 0x1000 = 2 := by omega
    simp only [Cpu.dispatch, hop]
    norm_num [Cpu.jump_to_subroutine]
    rw [setIdx_err_of_ge (by rw [hstk, hsp]; norm_num)]
    rfl
  · intro hhi hlo hsp
    subst hhi hlo
    rw [Cpu.execute_cycle, h1, h2, ok_bind, ok_bind]
    norm_num [Cpu.dispatch, Cpu.clear_or_return, Cpu.return_from_subroutine]
    simp only [hsp]
    rw [show (0 : ℤ) - 1 = -1 from by norm_num]
    rw [getIdx_eq_neg (by omega) (by rw [hstk]; omega)]
    simp only [hstk, ok_bind]
    norm_num
    exact rfl

/-- C3 witness: the amended statement evaluated on the two concrete
boundary states. -/
theorem stack_bounds_behaviour_val :
    Cpu.execute_cycle 64 32 c3_full_state 0 0 = .error .indexError ∧
    Cpu.execute_cycle 64 32 c3_state 0 0 =
      .ok (Cpu.decrement_timers
        { c3_state with opcode := 0xEE, pc := 0x347, sp := -1 } 0) := by
  constructor
  · exact (stack_bounds_behaviour 64 32 c3_full_state 0 0 0x2A 0xBC rfl rfl
      (by with_unfolding_all decide)).1 (by norm_num) (by norm_num)
      (by norm_num) (by norm_num) rfl
  · have h := (stack_bounds_behaviour 64 32 c3_state 0 0 0 0xEE rfl rfl
      (by with_unfolding_all decide)).2 rfl rfl rfl
    rw [h]
    with_unfolding_all rfl

/-! ### C1: decode behaviour of unmatched instruction words -/

/-- Machine state about to execute the word `0x0000`, which matches no
handler in the 0-family. -/
def c1_state : Cpu where
  memory := [0x00, 0x00]
  opcode := 0x123
  V := []
  I := 0
  delay_timer := 0
  sound_timer := 0
  last_timer_decrement := 0
  pc := 0
  stack := []
  sp := 0
  keypad := []
  display := []
  draw_flag := false

/-- C1 counterexample: the unmatched 0-family word `0x0000` is executed as
a silent no-op, not a surfaced decode failure: the step succeeds and only
latches the opcode and advances `pc` by 2. -/
theorem unmatched_word_silent_noop :
    (Cpu.execute_cycle 64 32 c1_state 0 0).toOption =
      some { c1_state with opcode := 0, pc := 2 } := by
  with_unfolding_all decide

/-- C1 (amended): an unmatched sub-opcode in the `0x8` or `0xF` families
surfaces a `KeyError` (carrying the unmatched dictionary key) to the
caller of the step, but an unmatched word in the `0x0` family (other than
`0x00E0`/`0x00EE`) or in the `0xE` family (low byte neither `0x9E` nor
`0xA1`) is a silent no-op: the step succeeds, changing only the latched
opcode, the default `pc += 2` advance, and the ordinary timer check. -/
theorem unmatched_decode_behaviour (W H : ℕ) (s : Cpu) (now : ℚ)
    (rnd hi lo : ℤ)
    (h1 : getIdx s.memory s.pc = .ok hi)
    (h2 : getIdx s.memory (s.pc + 1) = .ok lo)
    (hlo0 : 0 ≤ lo) (hlo1 : lo < 256) :
    (0 ≤ hi → hi < 0x10 → hi * 0x100 + lo ≠ 0xE0 → hi * 0x100 + lo ≠ 0xEE →
      Cpu.execute_cycle W H s now rnd =
        .ok (Cpu.decrement_timers
          { s with opcode := hi * 0x100 + lo, pc := s.pc + 2 } now)) ∧
    (0x80 ≤ hi → hi ≤ 0x8F →
      lo % 0x10 ≠ 0x0 → lo % 0x10 ≠ 0x1 → lo % 0x10 ≠ 0x2 → lo % 0x10 ≠ 0x3 →
      lo % 0x10 ≠ 0x4 → lo % 0x10 ≠ 0x5 → lo % 0x10 ≠ 0x6 → lo % 0x10 ≠ 0x7 →
      lo % 0x10 ≠ 0xE →
      Cpu.execute_cycle W H s now rnd = .error (.keyError (lo % 0x10))) ∧
    (0xE0 ≤ hi → hi ≤ 0xEF → lo ≠ 0x9E → lo ≠ 0xA1 →
      Cpu.execute_cycle W H s now rnd =
        .ok (Cpu.decrement_timers
          { s with opcode := hi * 0x100 + lo, pc := s.pc + 2 } now)) ∧
    (0xF0 ≤ hi → hi ≤ 0xFF →
      lo ≠ 0x07 → lo ≠ 0x0A → lo ≠ 0x15 → lo ≠ 0x18 → lo ≠ 0x1E → lo ≠ 0x29 →
      lo ≠ 0x33 → lo ≠ 0x55 → lo ≠ 0x65 →
      Cpu.execute_cycle W H s now rnd = .error (.keyError lo)) := by
  refine ⟨?_, ?_, ?_, ?_⟩
  · intro hh0 hh1 hne1 hne2
    rw [Cpu.execute_cycle, h1, h2, ok_bind, ok_bind]
    have hop : (hi * 0x100 + lo) / 0x1000 = 0 := by omega
    simp only [Cpu.dispatch, Cpu.clear_or_return, hop, if_neg hne1, if_neg hne2]
    norm_num
    exact rfl
  · intro hh0 hh1 k0 k1 k2 k3 k4 k5 k6 k7 kE
    rw [Cpu.execute_cycle, h1, h2, ok_bind, ok_bind]
    have hop : (hi * 0x100 + lo) / 0x1000 = 8 := by omega
    have hsub : (hi * 0x100 + lo) % 0x10 = lo % 0x10 := by omega
    simp only [Cpu.dispatch, Cpu.arithmetic_operation, hop, hsub]
    rw [if_neg k0, if_neg k1, if_neg k2, if_neg k3, if_neg k4, if_neg k5,
      if_neg k6, if_neg k7, if_neg kE]
    norm_num
    rw [error_bind]
  · intro hh0 hh1 hne1 hne2
    rw [Cpu.execute_cycle, h1, h2, ok_bind, ok_bind]
    have hop : (hi * 0x100 + lo) / 0x1000 = 0xE := by omega
    have hsub : (hi * 0x100 + lo) % 0x100 = lo := by omega
    simp only [Cpu.dispatch, Cpu.key_operation, hop, hsub]
    rw [if_neg hne1, if_neg hne2]
    norm_num
    exact rfl
  · intro hh0 hh1 k1 k2 k3 k4 k5 k6 k7 k8 k9
    rw [Cpu.execute_cycle, h1, h2, ok_bind, ok_bind]
    have hop : (hi * 0x100 + lo) / 0x1000 = 0xF := by omega
    have hsub : (hi * 0x100 + lo) % 0x100 = lo := by omega
    simp only [Cpu.dispatch, Cpu.misc_operation, hop, hsub]
    rw [if_neg k1, if_neg k2, if_neg k3, if_neg k4, if_neg k5, if_neg k6,
      if_neg k7, if_neg k8, if_neg k9]
    norm_num
    rw [error_bind]

/-- Machine state about to execute the word `0x8128`, whose 8-family
sub-opcode `0x8` has no handler. -/
def c1_8_state : Cpu where
  memory := [0x81, 0x28]
  opcode := 0
  V := []
  I := 0
  delay_timer := 0
  sound_timer := 0
  last_timer_decrement := 0
  pc := 0
  stack := []
  sp := 0
  keypad := []
  display := []
  draw_flag := false

/-- C1 witness: the amended statement evaluated on two concrete states:
`0x0000` is a silent no-op and `0x8128` surfaces `KeyError 8`. -/
theorem unmatched_decode_behaviour_val :
    Cpu.execute_cycle 64 32 c1_state 0 0 =
      .ok (Cpu.decrement_timers { c1_state with opcode := 0, pc := 2 } 0) ∧
    Cpu.execute_cycle 64 32 c1_8_state 0 0 = .error (.keyError 8) := by
  constructor
  · have h := (unmatched_decode_behaviour 64 32 c1_state 0 0 0 0 rfl rfl
      (by norm_num) (by norm_num)).1 (by norm_num) (by norm_num)
      (by norm_num) (by norm_num)
    rw [h]
    with_unfolding_all rfl
  · have h := (unmatched_decode_behaviour 64 32 c1_8_state 0 0 0x81 0x28 rfl rfl
      (by norm_num) (by norm_num)).2.1 (by norm_num) (by norm_num)
      (by norm_num) (by norm_num) (by norm_num) (by norm_num) (by norm_num)
      (by norm_num) (by norm_num) (by norm_num) (by norm_num)
    rw [h]
    with_unfolding_all rfl

/-! ### C7: the wait-for-keypress instruction is a no-op step -/

theorem decrement_timers_V (s : Cpu) (now : ℚ) :
    (Cpu.decrement_timers s now).V = s.V := by
  rw [Cpu.decrement_timers]; split <;> rfl

theorem decrement_timers_I (s : Cpu) (now : ℚ) :
    (Cpu.decrement_timers s now).I = s.I := by
  rw [Cpu.decrement_timers]; split <;> rfl

theorem decrement_timers_memory (s : Cpu) (now : ℚ) :
    (Cpu.decrement_timers s now).memory = s.memory := by
  rw [Cpu.decrement_timers]; split <;> rfl

theorem decrement_timers_stack (s : Cpu) (now : ℚ) :
    (Cpu.decrement_timers s now).stack = s.stack := by
  rw [Cpu.decrement_timers]; split <;> rfl

theorem decrement_timers_sp (s : Cpu) (now : ℚ) :
    (Cpu.decrement_timers s now).sp = s.sp := by
  rw [Cpu.decrement_timers]; split <;> rfl

theorem decrement_timers_keypad (s : Cpu) (now : ℚ) :
    (Cpu.decrement_timers s now).keypad = s.keypad := by
  rw [Cpu.decrement_timers]; split <;> rfl

theorem decrement_timers_display (s : Cpu) (now : ℚ) :
    (Cpu.decrement_timers s now).display = s.display := by
  rw [Cpu.decrement_timers]; split <;> rfl

theorem decrement_timers_draw_flag (s : Cpu) (now : ℚ) :
    (Cpu.decrement_timers s now).draw_flag = s.draw_flag := by
  rw [Cpu.decrement_timers]; split <;> rfl

theorem decrement_timers_pc (s : Cpu) (now : ℚ) :
    (Cpu.decrement_timers s now).pc = s.pc := by
  rw [Cpu.decrement_timers]; split <;> rfl

/-- C7: executing `FX0A` (wait for keypress) never blocks, never stores a
key, and is a no-op apart from the opcode latch: registers, `I`, memory,
stack, `sp`, keypad, display, and draw flag are unchanged, `pc` advances
by the default 2, and the timers get only the ordinary per-step check. -/
theorem wait_for_keypress_step_noop (W H : ℕ) (s : Cpu) (now : ℚ)
    (rnd hi : ℤ)
    (h1 : getIdx s.memory s.pc = .ok hi)
    (h2 : getIdx s.memory (s.pc + 1) = .ok 0x0A)
    (hh0 : 0xF0 ≤ hi) (hh1 : hi ≤ 0xFF) :
    ∃ s', Cpu.execute_cycle W H s now rnd = .ok s' ∧
      s'.V = s.V ∧ s'.I = s.I ∧ s'.memory = s.memory ∧ s'.stack = s.stack ∧
      s'.sp = s.sp ∧ s'.keypad = s.keypad ∧ s'.display = s.display ∧
      s'.draw_flag = s.draw_flag ∧ s'.pc = s.pc + 2 ∧
      s' = Cpu.decrement_timers
        { s with opcode := hi * 0x100 + 0x0A, pc := s.pc + 2 } now := by
  rw [Cpu.execute_cycle, h1, h2, ok_bind, ok_bind]
  have hop : (hi * 0x100 + 0x0A) / 0x1000 = 0xF := by omega
  have hsub : (hi * 0x100 + 0x0A) % 0x100 = 0x0A := by omega
  simp only [Cpu.dispatch, Cpu.misc_operation, hop, hsub]
  norm_num [Cpu.wait_for_keypress]
  refine ⟨_, rfl, ?_, ?_, ?_, ?_, ?_, ?_, ?_, ?_, ?_, ?_⟩ <;>
    simp [decrement_timers_V, decrement_timers_I, decrement_timers_memory,
      decrement_timers_stack, decrement_timers_sp, decrement_timers_keypad,
      decrement_timers_display, decrement_timers_draw_flag, decrement_timers_pc]

/-- Machine state about to execute `0xF00A`. -/
def c7_state : Cpu where
  memory := [0xF0, 0x0A]
  opcode := 0
  V := [1, 2, 3]
  I := 7
  delay_timer := 0
  sound_timer := 0
  last_timer_decrement := 0
  pc := 0
  stack := [9]
  sp := 1
  keypad := [1]
  display := [[1]]
  draw_flag := false

/-- C7 witness: the no-op behaviour evaluated on a concrete state. -/
theorem wait_for_keypress_step_noop_val :
    Cpu.execute_cycle 64 32 c7_state 0 0 =
      .ok { c7_state with opcode := 0xF00A, pc := 2 } := by
  obtain ⟨s', hrun, -, -, -, -, -, -, -, -, -, hs⟩ :=
    wait_for_keypress_step_noop 64 32 c7_state 0 0 0xF0 rfl rfl
      (by norm_num) (by norm_num)
  rw [hrun, hs]
  with_unfolding_all rfl

/-! ### C8: timer decrement discipline -/

theorem decrement_timers_pos (s : Cpu) (now : ℚ)
    (h : now - s.last_timer_decrement ≥ 1 / 60) :
    Cpu.decrement_timers s now =
      { s with
        delay_timer := if s.delay_timer > 0 then s.delay_timer - 1 else s.delay_timer
        sound_timer := if s.sound_timer > 0 then s.sound_timer - 1 else s.sound_timer
        last_timer_decrement := now } := by
  rw [Cpu.decrement_timers, if_pos h]

theorem decrement_timers_neg (s : Cpu) (now : ℚ)
    (h : ¬(now - s.last_timer_decrement ≥ 1 / 60)) :
    Cpu.decrement_timers s now = s := by
  rw [Cpu.decrement_timers, if_neg h]

/-- Once a decrement has been recorded inside a `1/60`-second window, no
further call whose time still lies below the window's end can trigger
another decrement. -/
theorem decrement_timers_stable (w : ℚ) (ts : List ℚ) :
    ∀ s : Cpu, (∀ t ∈ ts, t < w + 1 / 60) → w ≤ s.last_timer_decrement →
      ts.foldl Cpu.decrement_timers s = s := by
  induction ts with
  | nil => intro s _ _; rfl
  | cons t ts ih =>
      intro s h hw
      have ht := h t (List.mem_cons_self ..)
      have hstep : Cpu.decrement_timers s t = s :=
        decrement_timers_neg s t (by push_neg; linarith)
      rw [List.foldl_cons, hstep]
      exact ih s (fun x hx => h x (List.mem_cons_of_mem _ hx)) hw

/-- Any burst of timer checks whose times all lie inside one
`1/60`-second window decrements each timer at most once in total. -/
theorem decrement_timers_window (w : ℚ) (ts : List ℚ) :
    ∀ s : Cpu, (∀ t ∈ ts, w ≤ t ∧ t < w + 1 / 60) →
      ts.foldl Cpu.decrement_timers s = s ∨
        (w ≤ (ts.foldl Cpu.decrement_timers s).last_timer_decrement ∧
          s.delay_timer - 1 ≤ (ts.foldl Cpu.decrement_timers s).delay_timer ∧
          (ts.foldl Cpu.decrement_timers s).delay_timer ≤ s.delay_timer ∧
          s.sound_timer - 1 ≤ (ts.foldl Cpu.decrement_timers s).sound_timer ∧
          (ts.foldl Cpu.decrement_timers s).sound_timer ≤ s.sound_timer) := by
  induction ts with
  | nil => intro s _; exact .inl rfl
  | cons t ts ih =>
      intro s h
      have ht := h t (List.mem_cons_self ..)
      have hts : ∀ x ∈ ts, w ≤ x ∧ x < w + 1 / 60 :=
        fun x hx => h x (List.mem_cons_of_mem _ hx)
      rw [List.foldl_cons]
      by_cases htr : t - s.last_timer_decrement ≥ 1 / 60
      · rw [decrement_timers_pos s t htr]
        rw [decrement_timers_stable w ts _ (fun x hx => (hts x hx).2) ht.1]
        right
        refine ⟨ht.1, ?_, ?_, ?_, ?_⟩ <;> dsimp only <;> split_ifs <;> omega
      · rw [decrement_timers_neg s t htr]
        exact ih s hts
/-- C8: each timer decrements by exactly 1 when it is positive and at
least `1/60` (modelled in exact rational seconds) has elapsed since the
last recorded decrement; a check below the threshold changes nothing; the
timers never go below 0; and any burst of checks inside one
`1/60`-second window decrements each timer at most once. -/
theorem timer_decrement_discipline (s : Cpu) (now : ℚ) :
    (0 ≤ s.delay_timer → 0 ≤ (Cpu.decrement_timers s now).delay_timer) ∧
    (0 ≤ s.sound_timer → 0 ≤ (Cpu.decrement_timers s now).sound_timer) ∧
    (now - s.last_timer_decrement ≥ 1 / 60 → 0 < s.delay_timer →
      (Cpu.decrement_timers s now).delay_timer = s.delay_timer - 1) ∧
    (now - s.last_timer_decrement ≥ 1 / 60 → 0 < s.sound_timer →
      (Cpu.decrement_timers s now).sound_timer = s.sound_timer - 1) ∧
    (now - s.last_timer_decrement < 1 / 60 → Cpu.decrement_timers s now = s) ∧
    (∀ (ts : List ℚ) (w : ℚ), (∀ t ∈ ts, w ≤ t ∧ t < w + 1 / 60) →
      s.delay_timer - 1 ≤ (ts.foldl Cpu.decrement_timers s).delay_timer ∧
      s.sound_timer - 1 ≤ (ts.foldl Cpu.decrement_timers s).sound_timer) := by
  refine ⟨?_, ?_, ?_, ?_, ?_, ?_⟩
  · intro h
    by_cases htr : now - s.last_timer_decrement ≥ 1 / 60
    · rw [decrement_timers_pos s now htr]; dsimp only; split_ifs <;> omega
    · rw [decrement_timers_neg s now htr]; exact h
  · intro h
    by_cases htr : now - s.last_timer_decrement ≥ 1 / 60
    · rw [decrement_timers_pos s now htr]; dsimp only; split_ifs <;> omega
    · rw [decrement_timers_neg s now htr]; exact h
  · intro htr h
    rw [decrement_timers_pos s now htr]; dsimp only; rw [if_pos h]
  · intro htr h
    rw [decrement_timers_pos s now htr]; dsimp only; rw [if_pos h]
  · intro htr
    exact decrement_timers_neg s now (by linarith)
  · intro ts w h
    rcases decrement_timers_window w ts s h with he | ⟨_, h1, _, h2, _⟩
    · rw [he]; omega
    · exact ⟨h1, h2⟩

/-- Timer state: both timers at 2, last decrement recorded at time 0. -/
def c8_state : Cpu where
  memory := []
  opcode := 0
  V := []
  I := 0
  delay_timer := 2
  sound_timer := 2
  last_timer_decrement := 0
  pc := 0
  stack := []
  sp := 0
  keypad := []
  display := []
  draw_flag := false

/-- C8 witness: the discipline evaluated on a concrete burst: checks at
`1/60` and `1/50` seconds (both inside the window starting at `1/60`)
decrement each timer exactly once. -/
theorem timer_decrement_discipline_val :
    (Cpu.decrement_timers c8_state (1 / 60)).delay_timer = 1 ∧
    (Cpu.decrement_timers c8_state (1 / 120)).delay_timer = 2 ∧
    c8_state.delay_timer - 1 ≤
      (([1 / 60, 1 / 50] : List ℚ).foldl Cpu.decrement_timers
        c8_state).delay_timer ∧
    (([1 / 60, 1 / 50] : List ℚ).foldl Cpu.decrement_timers
      c8_state).delay_timer = 1 := by
  refine ⟨?_, ?_, ?_, ?_⟩
  · rw [(timer_decrement_discipline c8_state (1 / 60)).2.2.1
      (by norm_num [c8_state]) (by norm_num [c8_state])]
    rfl
  · rw [(timer_decrement_discipline c8_state (1 / 120)).2.2.2.2.1
      (by norm_num [c8_state])]
    rfl
  · exact ((timer_decrement_discipline c8_state 0).2.2.2.2.2 [1 / 60, 1 / 50]
      (1 / 60) (by intro t ht; simp at ht; rcases ht with rfl | rfl <;>
        norm_num)).1
  · with_unfolding_all decide

/-! ### C10: the register-range invariant -/

theorem bind_ok_iff {α β : Type} {m : Except PyErr α} {f : α → Except PyErr β}
    {b : β} : (m >>= f) = .ok b ↔ ∃ a, m = .ok a ∧ f a = .ok b := by
  cases m with
  | ok a => simp [ok_bind]
  | error e => simp [error_bind]

/-- All entries of a register (or memory) file are bytes. -/
def VOK (l : List ℤ) : Prop := ∀ v ∈ l, 0 ≤ v ∧ v < 256

theorem VOK_set {l l' : List ℤ} {i v : ℤ} (h : setIdx l i v = .ok l')
    (hl : VOK l) (hv : 0 ≤ v ∧ v < 256) : VOK l' :=
  setIdx_forall h hl hv

theorem VOK_get {l : List ℤ} {i v : ℤ} (h : getIdx l i = .ok v)
    (hl : VOK l) : 0 ≤ v ∧ v < 256 :=
  hl v (getIdx_mem h)

theorem bm_add8_bound (x y : ℤ) : 0 ≤ (bm.add 8 x y).1 ∧ (bm.add 8 x y).1 < 256 := by
  simp only [bm.add]
  norm_num
  constructor
  · exact Int.emod_nonneg _ (by norm_num)
  · exact Int.emod_lt_of_pos _ (by norm_num)

theorem bm_sub8_bound (x y : ℤ) : 0 ≤ (bm.sub 8 x y).1 ∧ (bm.sub 8 x y).1 < 256 := by
  simp only [bm.sub]
  norm_num
  constructor
  · exact Int.emod_nonneg _ (by norm_num)
  · exact Int.emod_lt_of_pos _ (by norm_num)

theorem flag_bound (c : Bool) : 0 ≤ (if c then (1 : ℤ) else 0) ∧
    (if c then (1 : ℤ) else 0) < 256 := by
  split <;> norm_num

theorem int_lor_bound {a b : ℤ} (ha : 0 ≤ a ∧ a < 256) (hb : 0 ≤ b ∧ b < 256) :
    0 ≤ Int.lor a b ∧ Int.lor a b < 256 := by
  obtain ⟨m, rfl⟩ := Int.eq_ofNat_of_zero_le ha.1
  obtain ⟨n, rfl⟩ := Int.eq_ofNat_of_zero_le hb.1
  have : Int.lor (m : ℤ) (n : ℤ) = ((m ||| n : ℕ) : ℤ) := rfl
  rw [this]
  have hm : m < 2 ^ 8 := by exact_mod_cast ha.2
  have hn : n < 2 ^ 8 := by exact_mod_cast hb.2
  have := Nat.or_lt_two_pow hm hn
  constructor
  · exact_mod_cast Nat.zero_le _
  · exact_mod_cast this

theorem int_land_bound {a b : ℤ} (ha : 0 ≤ a) (hb : 0 ≤ b ∧ b < 256) :
    0 ≤ Int.land a b ∧ Int.land a b < 256 := by
  obtain ⟨m, rfl⟩ := Int.eq_ofNat_of_zero_le ha
  obtain ⟨n, rfl⟩ := Int.eq_ofNat_of_zero_le hb.1
  have : Int.land (m : ℤ) (n : ℤ) = ((m &&& n : ℕ) : ℤ) := rfl
  rw [this]
  have hn : n < 256 := by exact_mod_cast hb.2
  have := Nat.le_of_lt_succ (Nat.lt_succ_of_lt hn)
  constructor
  · exact_mod_cast Nat.zero_le _
  · exact_mod_cast Nat.lt_of_le_of_lt Nat.and_le_right hn

theorem int_lxor_bound {a b : ℤ} (ha : 0 ≤ a ∧ a < 256) (hb : 0 ≤ b ∧ b < 256) :
    0 ≤ Int.xor a b ∧ Int.xor a b < 256 := by
  obtain ⟨m, rfl⟩ := Int.eq_ofNat_of_zero_le ha.1
  obtain ⟨n, rfl⟩ := Int.eq_ofNat_of_zero_le hb.1
  have : Int.xor (m : ℤ) (n : ℤ) = ((m ^^^ n : ℕ) : ℤ) := rfl
  rw [this]
  have hm : m < 2 ^ 8 := by exact_mod_cast ha.2
  have hn : n < 2 ^ 8 := by exact_mod_cast hb.2
  have := Nat.xor_lt_two_pow hm hn
  constructor
  · exact_mod_cast Nat.zero_le _
  · exact_mod_cast this

theorem clear_or_return_V {W H : ℕ} {s t : Cpu}
    (h : Cpu.clear_or_return W H s = .ok t) : t.V = s.V := by
  rw [Cpu.clear_or_return] at h
  split_ifs at h
  all_goals
    first
      | (rw [Cpu.return_from_subroutine, bind_ok_iff] at h
         obtain ⟨v, _, h⟩ := h
         injection h with h
         subst h
         rfl)
      | (injection h with h; subst h; rfl)

theorem jump_to_address_V {s t : Cpu}
    (h : Cpu.jump_to_address s = .ok t) : t.V = s.V := by
  rw [Cpu.jump_to_address] at h
  injection h with h
  subst h
  rfl

theorem jump_to_subroutine_V {s t : Cpu}
    (h : Cpu.jump_to_subroutine s = .ok t) : t.V = s.V := by
  rw [Cpu.jump_to_subroutine, bind_ok_iff] at h
  obtain ⟨st, _, h⟩ := h
  injection h with h
  subst h
  rfl

theorem skip_if_reg_equal_val_V {s t : Cpu}
    (h : Cpu.skip_if_reg_equal_val s = .ok t) : t.V = s.V := by
  rw [Cpu.skip_if_reg_equal_val, bind_ok_iff] at h
  obtain ⟨v, _, h⟩ := h
  injection h with h
  subst h
  split <;> rfl

theorem skip_if_reg_not_equal_val_V {s t : Cpu}
    (h : Cpu.skip_if_reg_not_equal_val s = .ok t) : t.V = s.V := by
  rw [Cpu.skip_if_reg_not_equal_val, bind_ok_iff] at h
  obtain ⟨v, _, h⟩ := h
  injection h with h
  subst h
  split <;> rfl

theorem skip_if_reg_equal_reg_V {s t : Cpu}
    (h : Cpu.skip_if_reg_equal_reg s = .ok t) : t.V = s.V := by
  rw [Cpu.skip_if_reg_equal_reg, bind_ok_iff] at h
  obtain ⟨vx, _, h⟩ := h
  rw [bind_ok_iff] at h
  obtain ⟨vy, _, h⟩ := h
  injection h with h
  subst h
  split <;> rfl

theorem skip_if_reg_not_equal_reg_V {s t : Cpu}
    (h : Cpu.skip_if_reg_not_equal_reg s = .ok t) : t.V = s.V := by
  rw [Cpu.skip_if_reg_not_equal_reg, bind_ok_iff] at h
  obtain ⟨vx, _, h⟩ := h
  rw [bind_ok_iff] at h
  obtain ⟨vy, _, h⟩ := h
  injection h with h
  subst h
  split <;> rfl

theorem load_index_reg_with_val_V {s t : Cpu}
    (h : Cpu.load_index_reg_with_val s = .ok t) : t.V = s.V := by
  rw [Cpu.load_index_reg_with_val] at h
  injection h with h
  subst h
  rfl

theorem jump_to_address_plus_reg_V {s t : Cpu}
    (h : Cpu.jump_to_address_plus_reg s = .ok t) : t.V = s.V := by
  rw [Cpu.jump_to_address_plus_reg, bind_ok_iff] at h
  obtain ⟨v0, _, h⟩ := h
  injection h with h
  subst h
  rfl

theorem key_operation_V {s t : Cpu}
    (h : Cpu.key_operation s = .ok t) : t.V = s.V := by
  rw [Cpu.key_operation] at h
  split_ifs at h
  · rw [bind_ok_iff] at h
    obtain ⟨v, _, h⟩ := h
    rw [Cpu.skip_if_key_pressed, bind_ok_iff] at h
    obtain ⟨k, _, h⟩ := h
    injection h with h
    subst h
    split <;> rfl
  · rw [bind_ok_iff] at h
    obtain ⟨v, _, h⟩ := h
    rw [Cpu.skip_if_key_not_pressed, bind_ok_iff] at h
    obtain ⟨k, _, h⟩ := h
    injection h with h
    subst h
    split <;> rfl
  · injection h with h
    subst h
    rfl

theorem move_reg_into_delay_timer_V {s t : Cpu}
    (h : Cpu.move_reg_into_delay_timer (s.opcode % 0x1000 / 0x100) s = .ok t) :
    t.V = s.V := by
  rw [Cpu.move_reg_into_delay_timer, bind_ok_iff] at h
  obtain ⟨v, _, h⟩ := h
  injection h with h
  subst h
  rfl

theorem move_reg_into_sound_timer_V {s t : Cpu}
    (h : Cpu.move_reg_into_sound_timer (s.opcode % 0x1000 / 0x100) s = .ok t) :
    t.V = s.V := by
  rw [Cpu.move_reg_into_sound_timer, bind_ok_iff] at h
  obtain ⟨v, _, h⟩ := h
  injection h with h
  subst h
  rfl

theorem load_index_with_reg_sprite_V {s t : Cpu} {reg : ℤ}
    (h : Cpu.load_index_with_reg_sprite reg s = .ok t) : t.V = s.V := by
  rw [Cpu.load_index_with_reg_sprite, bind_ok_iff] at h
  obtain ⟨v, _, h⟩ := h
  injection h with h
  subst h
  rfl

theorem store_bcd_into_memory_V {s t : Cpu} {reg : ℤ}
    (h : Cpu.store_bcd_into_memory reg s = .ok t) : t.V = s.V := by
  rw [Cpu.store_bcd_into_memory, bind_ok_iff] at h
  obtain ⟨v, _, h⟩ := h
  split_ifs at h
  injection h with h
  subst h
  rfl

theorem store_regs_into_memory_V {s t : Cpu} {reg : ℤ}
    (h : Cpu.store_regs_into_memory reg s = .ok t) : t.V = s.V := by
  rw [Cpu.store_regs_into_memory, bind_ok_iff] at h
  obtain ⟨m, _, h⟩ := h
  injection h with h
  subst h
  rfl

theorem wait_for_keypress_V {s t : Cpu} {reg : ℤ}
    (h : Cpu.wait_for_keypress reg s = .ok t) : t.V = s.V := by
  rw [Cpu.wait_for_keypress] at h
  injection h with h
  subst h
  rfl

theorem emod_bound (x n : ℤ) (hn : 0 < n) : 0 ≤ x % n ∧ x % n < n :=
  ⟨Int.emod_nonneg x (ne_of_gt hn), Int.emod_lt_of_pos x hn⟩

theorem bound_weaken {v m : ℤ} (h : 0 ≤ v ∧ v < m) (hm : m ≤ 256) :
    0 ≤ v ∧ v < 256 :=
  ⟨h.1, lt_of_lt_of_le h.2 hm⟩

theorem move_val_to_reg_VOK {s t : Cpu}
    (h : Cpu.move_val_to_reg s = .ok t) (hV : VOK s.V) : VOK t.V := by
  rw [Cpu.move_val_to_reg, bind_ok_iff] at h
  obtain ⟨V', hset, h⟩ := h
  injection h with h
  subst h
  exact VOK_set hset hV (emod_bound _ _ (by norm_num))

theorem add_val_to_reg_VOK {s t : Cpu}
    (h : Cpu.add_val_to_reg s = .ok t) (hV : VOK s.V) : VOK t.V := by
  rw [Cpu.add_val_to_reg, bind_ok_iff] at h
  obtain ⟨v, _, h⟩ := h
  rw [bind_ok_iff] at h
  obtain ⟨V', hset, h⟩ := h
  injection h with h
  subst h
  exact VOK_set hset hV (bm_add8_bound _ _)

theorem arithmetic_operation_VOK {s t : Cpu}
    (h : Cpu.arithmetic_operation s = .ok t) (hV : VOK s.V) : VOK t.V := by
  rw [Cpu.arithmetic_operation] at h
  split_ifs at h
  · rw [Cpu.move_reg_into_reg, bind_ok_iff] at h
    obtain ⟨vy, hy, h⟩ := h
    rw [bind_ok_iff] at h
    obtain ⟨V', hset, h⟩ := h
    injection h with h
    subst h
    exact VOK_set hset hV (VOK_get hy hV)
  · rw [Cpu.or_reg_into_reg, bind_ok_iff] at h
    obtain ⟨vx, hx, h⟩ := h
    rw [bind_ok_iff] at h
    obtain ⟨vy, hy, h⟩ := h
    rw [bind_ok_iff] at h
    obtain ⟨V', hset, h⟩ := h
    injection h with h
    subst h
    exact VOK_set hset hV (int_lor_bound (VOK_get hx hV) (VOK_get hy hV))
  · rw [Cpu.and_reg_into_reg, bind_ok_iff] at h
    obtain ⟨vx, hx, h⟩ := h
    rw [bind_ok_iff] at h
    obtain ⟨vy, hy, h⟩ := h
    rw [bind_ok_iff] at h
    obtain ⟨V', hset, h⟩ := h
    injection h with h
    subst h
    exact VOK_set hset hV (int_land_bound (VOK_get hx hV).1 (VOK_get hy hV))
  · rw [Cpu.xor_reg_into_reg, bind_ok_iff] at h
    obtain ⟨vx, hx, h⟩ := h
    rw [bind_ok_iff] at h
    obtain ⟨vy, hy, h⟩ := h
    rw [bind_ok_iff] at h
    obtain ⟨V', hset, h⟩ := h
    injection h with h
    subst h
    exact VOK_set hset hV (int_lxor_bound (VOK_get hx hV) (VOK_get hy hV))
  · rw [Cpu.add_reg_into_reg, bind_ok_iff] at h
    obtain ⟨vx, hx, h⟩ := h
    rw [bind_ok_iff] at h
    obtain ⟨vy, hy, h⟩ := h
    rw [bind_ok_iff] at h
    obtain ⟨V', hset, h⟩ := h
    rw [bind_ok_iff] at h
    obtain ⟨V'', hset2, h⟩ := h
    injection h with h
    subst h
    exact VOK_set hset2 (VOK_set hset hV (bm_add8_bound _ _)) (flag_bound _)
  · rw [Cpu.sub_reg_into_reg, bind_ok_iff] at h
    obtain ⟨vx, hx, h⟩ := h
    rw [bind_ok_iff] at h
    obtain ⟨vy, hy, h⟩ := h
    rw [bind_ok_iff] at h
    obtain ⟨V', hset, h⟩ := h
    rw [bind_ok_iff] at h
    obtain ⟨V'', hset2, h⟩ := h
    injection h with h
    subst h
    exact VOK_set hset2 (VOK_set hset hV (bm_sub8_bound _ _)) (flag_bound _)
  · rw [Cpu.right_shift_reg, bind_ok_iff] at h
    obtain ⟨vx, hx, h⟩ := h
    rw [bind_ok_iff] at h
    obtain ⟨V', hset, h⟩ := h
    rw [bind_ok_iff] at h
    obtain ⟨vx', hx', h⟩ := h
    rw [bind_ok_iff] at h
    obtain ⟨V'', hset2, h⟩ := h
    injection h with h
    subst h
    have hV' : VOK V' :=
      VOK_set hset hV (bound_weaken (emod_bound _ _ (by norm_num)) (by norm_num))
    have hvx' := VOK_get hx' hV'
    refine VOK_set hset2 hV' ⟨Int.ediv_nonneg hvx'.1 (by norm_num), ?_⟩
    calc vx' / 2 ≤ vx' := Int.ediv_le_self 2 hvx'.1
    _ < 256 := hvx'.2
  · rw [Cpu.rsub_reg_into_reg, bind_ok_iff] at h
    obtain ⟨vx, hx, h⟩ := h
    rw [bind_ok_iff] at h
    obtain ⟨vy, hy, h⟩ := h
    rw [bind_ok_iff] at h
    obtain ⟨V', hset, h⟩ := h
    rw [bind_ok_iff] at h
    obtain ⟨V'', hset2, h⟩ := h
    injection h with h
    subst h
    exact VOK_set hset2 (VOK_set hset hV (bm_sub8_bound _ _)) (flag_bound _)
  · rw [Cpu.left_shift_reg, bind_ok_iff] at h
    obtain ⟨vx, hx, h⟩ := h
    rw [bind_ok_iff] at h
    obtain ⟨V', hset, h⟩ := h
    rw [bind_ok_iff] at h
    obtain ⟨vx', hx', h⟩ := h
    rw [bind_ok_iff] at h
    obtain ⟨V'', hset2, h⟩ := h
    injection h with h
    subst h
    have hV' : VOK V' :=
      VOK_set hset hV (bound_weaken (emod_bound _ _ (by norm_num)) (by norm_num))
    exact VOK_set hset2 hV' (emod_bound _ _ (by norm_num))

theorem generate_random_number_VOK {rnd : ℤ} {s t : Cpu}
    (h : Cpu.generate_random_number rnd s = .ok t) (hV : VOK s.V)
    (hr : 0 ≤ rnd) : VOK t.V := by
  rw [Cpu.generate_random_number, bind_ok_iff] at h
  obtain ⟨V', hset, h⟩ := h
  injection h with h
  subst h
  exact VOK_set hset hV (int_land_bound hr (emod_bound _ _ (by norm_num)))

theorem draw_fold_VOK {W H : ℕ} {col row I_reg : ℤ} {mem : List ℤ}
    (ps : List (ℕ × ℕ)) :
    ∀ (acc : List ℤ × List (List ℤ)) (r : List ℤ × List (List ℤ)),
      List.foldlM (Cpu.draw_pixel W H col row I_reg mem) acc ps = .ok r →
      VOK acc.1 → VOK r.1 := by
  induction ps with
  | nil =>
      intro acc r h hv
      rw [List.foldlM_nil] at h
      injection h with h
      subst h
      exact hv
  | cons p ps ih =>
      intro acc r h hv
      rw [List.foldlM_cons, bind_ok_iff] at h
      obtain ⟨a, ha, h⟩ := h
      refine ih a r h ?_
      rw [Cpu.draw_pixel] at ha
      simp only [bind_ok_iff] at ha
      obtain ⟨dcol, _, c, _, byte, _, ha⟩ := ha
      split_ifs at ha
      · simp only [bind_ok_iff] at ha
        obtain ⟨V1, hset, dcol', _, d', _, ha⟩ := ha
        injection ha with ha
        subst ha
        exact VOK_set hset hv (by norm_num)
      · simp only [ok_bind, bind_ok_iff] at ha
        obtain ⟨dcol', _, d', _, ha⟩ := ha
        injection ha with ha
        subst ha
        exact hv

theorem display_sprite_VOK {W H : ℕ} {s t : Cpu}
    (h : Cpu.display_sprite W H s = .ok t) (hV : VOK s.V) : VOK t.V := by
  rw [Cpu.display_sprite, bind_ok_iff] at h
  obtain ⟨V0, hV0, h⟩ := h
  rw [bind_ok_iff] at h
  obtain ⟨col, _, h⟩ := h
  rw [bind_ok_iff] at h
  obtain ⟨row, _, h⟩ := h
  rw [bind_ok_iff] at h
  obtain ⟨r, hr, h⟩ := h
  injection h with h
  subst h
  exact draw_fold_VOK _ _ _ hr (VOK_set hV0 hV (by norm_num))

theorem load_fold_VOK {mem : List ℤ} {I_reg : ℤ} (hM : VOK mem)
    (ps : List ℕ) :
    ∀ (acc : List ℤ) (r : List ℤ),
      List.foldlM (fun (vs : List ℤ) (i : ℕ) => do
        let v ← getIdx mem (I_reg + (i : ℤ))
        setIdx vs (i : ℤ) v) acc ps = .ok r →
      VOK acc → VOK r := by
  induction ps with
  | nil =>
      intro acc r h hv
      rw [List.foldlM_nil] at h
      injection h with h
      subst h
      exact hv
  | cons p ps ih =>
      intro acc r h hv
      rw [List.foldlM_cons, bind_ok_iff] at h
      obtain ⟨a, ha, h⟩ := h
      rw [bind_ok_iff] at ha
      obtain ⟨v, hg, ha⟩ := ha
      exact ih a r h (VOK_set ha hv (VOK_get hg hM))

theorem misc_operation_VOK {s t : Cpu}
    (h : Cpu.misc_operation s = .ok t) (hV : VOK s.V) (hM : VOK s.memory)
    (hD : 0 ≤ s.delay_timer ∧ s.delay_timer < 256) : VOK t.V := by
  rw [Cpu.misc_operation] at h
  split_ifs at h
  · rw [Cpu.move_delay_timer_into_reg, bind_ok_iff] at h
    obtain ⟨V', hset, h⟩ := h
    injection h with h
    subst h
    exact VOK_set hset hV hD
  · rw [wait_for_keypress_V h]
    exact hV
  · rw [move_reg_into_delay_timer_V h]
    exact hV
  · rw [move_reg_into_sound_timer_V h]
    exact hV
  · rw [Cpu.add_reg_into_index, bind_ok_iff] at h
    obtain ⟨v, _, h⟩ := h
    rw [bind_ok_iff] at h
    obtain ⟨V', hset, h⟩ := h
    injection h with h
    subst h
    exact VOK_set hset hV (flag_bound _)
  · rw [load_index_with_reg_sprite_V h]
    exact hV
  · rw [store_bcd_into_memory_V h]
    exact hV
  · rw [store_regs_into_memory_V h]
    exact hV
  · rw [Cpu.load_memory_into_regs, bind_ok_iff] at h
    obtain ⟨V', hfold, h⟩ := h
    injection h with h
    subst h
    exact load_fold_VOK hM _ _ _ hfold hV

theorem dispatch_VOK {W H : ℕ} {now : ℚ} {rnd op : ℤ} {s t : Cpu}
    (h : Cpu.dispatch W H now rnd op s = .ok t) (hV : VOK s.V)
    (hM : VOK s.memory) (hD : 0 ≤ s.delay_timer ∧ s.delay_timer < 256)
    (hr : 0 ≤ rnd) : VOK t.V := by
  rw [Cpu.dispatch] at h
  by_cases e0 : op = 0x0
  · rw [if_pos e0] at h; rw [clear_or_return_V h]; exact hV
  rw [if_neg e0] at h
  by_cases e1 : op = 0x1
  · rw [if_pos e1] at h; rw [jump_to_address_V h]; exact hV
  rw [if_neg e1] at h
  by_cases e2 : op = 0x2
  · rw [if_pos e2] at h; rw [jump_to_subroutine_V h]; exact hV
  rw [if_neg e2] at h
  by_cases e3 : op = 0x3
  · rw [if_pos e3] at h; rw [skip_if_reg_equal_val_V h]; exact hV
  rw [if_neg e3] at h
  by_cases e4 : op = 0x4
  · rw [if_pos e4] at h; rw [skip_if_reg_not_equal_val_V h]; exact hV
  rw [if_neg e4] at h
  by_cases e5 : op = 0x5
  · rw [if_pos e5] at h; rw [skip_if_reg_equal_reg_V h]; exact hV
  rw [if_neg e5] at h
  by_cases e6 : op = 0x6
  · rw [if_pos e6] at h; exact move_val_to_reg_VOK h hV
  rw [if_neg e6] at h
  by_cases e7 : op = 0x7
  · rw [if_pos e7] at h; exact add_val_to_reg_VOK h hV
  rw [if_neg e7] at h
  by_cases e8 : op = 0x8
  · rw [if_pos e8] at h; exact arithmetic_operation_VOK h hV
  rw [if_neg e8] at h
  by_cases e9 : op = 0x9
  · rw [if_pos e9] at h; rw [skip_if_reg_not_equal_reg_V h]; exact hV
  rw [if_neg e9] at h
  by_cases eA : op = 0xA
  · rw [if_pos eA] at h; rw [load_index_reg_with_val_V h]; exact hV
  rw [if_neg eA] at h
  by_cases eB : op = 0xB
  · rw [if_pos eB] at h; rw [jump_to_address_plus_reg_V h]; exact hV
  rw [if_neg eB] at h
  by_cases eC : op = 0xC
  · rw [if_pos eC] at h; exact generate_random_number_VOK h hV hr
  rw [if_neg eC] at h
  by_cases eD : op = 0xD
  · rw [if_pos eD] at h; exact display_sprite_VOK h hV
  rw [if_neg eD] at h
  by_cases eE : op = 0xE
  · rw [if_pos eE] at h; rw [key_operation_V h]; exact hV
  rw [if_neg eE] at h
  by_cases eF : op = 0xF
  · rw [if_pos eF] at h; exact misc_operation_VOK h hV hM hD
  rw [if_neg eF] at h
  exact absurd h (by simp)

/-- C10 (amended): starting from any state in which every register and
every memory cell holds a byte value, and in which the delay timer also
holds a byte value (and given that the drawn random number is a byte, per
the `randint(0, 255)` contract), a successful step leaves every register
`V[0..15]` with a value in `[0, 255]`. -/
theorem register_range_invariant (W H : ℕ) (s s' : Cpu) (now : ℚ) (rnd : ℤ)
    (hV : ∀ v ∈ s.V, 0 ≤ v ∧ v < 256)
    (hM : ∀ c ∈ s.memory, 0 ≤ c ∧ c < 256)
    (hD : 0 ≤ s.delay_timer ∧ s.delay_timer < 256)
    (hr : 0 ≤ rnd)
    (hrun : Cpu.execute_cycle W H s now rnd = .ok s') :
    ∀ v ∈ s'.V, 0 ≤ v ∧ v < 256 := by
  rw [Cpu.execute_cycle] at hrun
  rw [bind_ok_iff] at hrun
  obtain ⟨hi, _, hrun⟩ := hrun
  rw [bind_ok_iff] at hrun
  obtain ⟨lo, _, hrun⟩ := hrun
  rw [bind_ok_iff] at hrun
  obtain ⟨t, hdisp, hrun⟩ := hrun
  injection hrun with hrun
  subst hrun
  show VOK _
  rw [decrement_timers_V]
  have ht : VOK t.V := dispatch_VOK hdisp hV hM hD hr
  split <;> exact ht

/-- Machine state with byte-valued registers and memory but a delay timer
of 300, about to execute `0xF007` (`V[0] = delay_timer`). -/
def c10_state : Cpu where
  memory := [0xF0, 0x07]
  opcode := 0
  V := [0, 0, 0, 0, 0, 0, 0, 0, 0, 0, 0, 0, 0, 0, 0, 0]
  I := 0
  delay_timer := 300
  sound_timer := 0
  last_timer_decrement := 0
  pc := 0
  stack := []
  sp := 0
  keypad := []
  display := []
  draw_flag := false

/-- C10 counterexample: from a state whose registers and memory all hold
values in `[0, 255]`, executing `0xF007` with `delay_timer = 300` leaves
`V[0] = 300`, outside `[0, 255]`; the claim's hypotheses say nothing
about the delay timer, so the claim as stated is false. -/
theorem delay_timer_breaks_register_range :
    (∀ v ∈ c10_state.V, 0 ≤ v ∧ v < 256) ∧
    (∀ c ∈ c10_state.memory, 0 ≤ c ∧ c < 256) ∧
    (Cpu.execute_cycle 64 32 c10_state 0 0).toOption.map
      (fun s => s.V.getD 0 0) = some 300 ∧
    ¬((300 : ℤ) < 256) := by
  with_unfolding_all decide

/-- Machine state about to execute `0x8014` (`V[0] += V[1]`) with
`V[0] = 200`, `V[1] = 100`. -/
def c10_add_state : Cpu where
  memory := [0x80, 0x14]
  opcode := 0
  V := [200, 100, 0, 0, 0, 0, 0, 0, 0, 0, 0, 0, 0, 0, 0, 0]
  I := 0
  delay_timer := 5
  sound_timer := 0
  last_timer_decrement := 0
  pc := 0
  stack := []
  sp := 0
  keypad := []
  display := []
  draw_flag := false

/-- C10 witness: the amended invariant evaluated on a concrete
carry-producing add. -/
theorem register_range_invariant_val :
    ∃ s', Cpu.execute_cycle 64 32 c10_add_state 0 7 = .ok s' ∧
      ∀ v ∈ s'.V, 0 ≤ v ∧ v < 256 := by
  cases hrun : Cpu.execute_cycle 64 32 c10_add_state 0 7 with
  | error e =>
      exact absurd
        (by rw [hrun]; rfl :
          (Cpu.execute_cycle 64 32 c10_add_state 0 7).toOption = none)
        (by with_unfolding_all decide)
  | ok s' =>
      exact ⟨s', rfl,
        register_range_invariant 64 32 c10_add_state s' 0 7
          (by with_unfolding_all decide) (by with_unfolding_all decide)
          (by with_unfolding_all decide) (by norm_num) hrun⟩

/-! ### C4 and C9: sprite drawing -/

/-- The display cell at column/row index pair `c` (`display[c.1][c.2]`). -/
def cellAt (d : List (List ℤ)) (c : ℕ × ℕ) : ℤ :=
  (d.getD c.1 []).getD c.2 0

/-- The wrapped display coordinates targeted by sprite offset
`p = (dy, dx)` for a sprite drawn at base `(col, row)`. -/
def coord (W H : ℕ) (col row : ℤ) (p : ℕ × ℕ) : ℕ × ℕ :=
  (((col + (p.2 : ℤ)) % (W : ℤ)).toNat, ((row + (p.1 : ℤ)) % (H : ℤ)).toNat)

/-- The sprite bit read for offset `p = (dy, dx)`: bit `7 - dx` of
`memory[I + dy]`. -/
def spriteBit (I_reg : ℤ) (mem : List ℤ) (p : ℕ × ℕ) : ℤ :=
  bm.extract_bit (7 - p.2) (mem.getD (I_reg + (p.1 : ℤ)).toNat 0)

theorem getD_set_self {α : Type} {l : List α} {i : ℕ} (h : i < l.length)
    (v dflt : α) : (l.set i v).getD i dflt = v := by
  rw [List.getD_eq_getElem _ _ (by simpa using h)]
  exact List.getElem_set_self _

theorem getD_set_ne {α : Type} {l : List α} {i j : ℕ} (h : i ≠ j)
    (v dflt : α) : (l.set i v).getD j dflt = l.getD j dflt := by
  by_cases hj : j < l.length
  · rw [List.getD_eq_getElem _ _ (by simpa using hj),
      List.getD_eq_getElem _ _ hj]
    exact List.getElem_set_ne h _
  · rw [List.getD_eq_default _ _ (by simpa using hj),
      List.getD_eq_default _ _ (by omega)]

theorem int_xor_cancel (c b : ℤ) : Int.xor (Int.xor c b) b = c := by
  cases c with
  | ofNat m =>
      cases b with
      | ofNat n => show Int.ofNat ((m ^^^ n) ^^^ n) = Int.ofNat m
                   rw [Nat.xor_cancel_right]
      | negSucc n => show Int.ofNat ((m ^^^ n) ^^^ n) = Int.ofNat m
                     rw [Nat.xor_cancel_right]
  | negSucc m =>
      cases b with
      | ofNat n => show Int.negSucc ((m ^^^ n) ^^^ n) = Int.negSucc m
                   rw [Nat.xor_cancel_right]
      | negSucc n => show Int.negSucc ((m ^^^ n) ^^^ n) = Int.negSucc m
                     rw [Nat.xor_cancel_right]

theorem emod_toNat_inj {a : ℤ} {m : ℕ} (hm : 0 < m) {i j : ℕ}
    (hi : i < m) (hj : j < m)
    (h : ((a + (i : ℤ)) % (m : ℤ)).toNat = ((a + (j : ℤ)) % (m : ℤ)).toNat) :
    i = j := by
  have hmz : (0 : ℤ) < m := by exact_mod_cast hm
  have e1 : 0 ≤ (a + (i : ℤ)) % m := Int.emod_nonneg _ (ne_of_gt hmz)
  have e2 : 0 ≤ (a + (j : ℤ)) % m := Int.emod_nonneg _ (ne_of_gt hmz)
  have h1 : (a + (i : ℤ)) % m = (a + (j : ℤ)) % m := by omega
  have hd : (m : ℤ) ∣ (a + (j : ℤ)) - (a + (i : ℤ)) := Int.ModEq.dvd h1
  have hd' : (m : ℤ) ∣ ((j : ℤ) - (i : ℤ)) := by
    simpa [add_sub_add_left_eq_sub] using hd
  have hz : ((j : ℤ) - (i : ℤ)) = 0 := by
    apply Int.eq_zero_of_abs_lt_dvd hd'
    rw [abs_lt]
    constructor <;> push_cast <;> omega
  omega

theorem mem_sprite_offsets {n : ℕ} {p : ℕ × ℕ} :
    p ∈ Cpu.sprite_offsets n ↔ p.1 < n ∧ p.2 < 8 := by
  cases p with
  | mk dy dx =>
      simp only [Cpu.sprite_offsets, List.mem_flatMap, List.mem_map,
        List.mem_range, Prod.mk.injEq]
      constructor
      · rintro ⟨a, ha, b, hb, rfl, rfl⟩
        exact ⟨ha, hb⟩
      · rintro ⟨ha, hb⟩
        exact ⟨dy, ha, dx, hb, rfl, rfl⟩

theorem sprite_offsets_coord_pairwise (W H n : ℕ) (col row : ℤ)
    (hW : 8 ≤ W) (hn : n ≤ H) (hW0 : 0 < W) (hH0 : 0 < H) :
    (Cpu.sprite_offsets n).Pairwise
      (fun p q => coord W H col row p ≠ coord W H col row q) := by
  rw [Cpu.sprite_offsets, List.pairwise_flatMap]
  constructor
  · intro dy hdy
    rw [List.pairwise_map]
    refine List.Pairwise.imp_of_mem ?_ (List.pairwise_lt_range 8)
    intro dx1 dx2 h1 h2 hlt hcon
    rw [List.mem_range] at h1 h2
    have := congrArg Prod.fst hcon
    simp only [coord] at this
    exact absurd (emod_toNat_inj hW0 (lt_of_lt_of_le h1 hW)
      (lt_of_lt_of_le h2 hW) this) (by omega)
  · refine List.Pairwise.imp_of_mem ?_ (List.pairwise_lt_range n)
    intro dy1 dy2 h1 h2 hlt p hp q hq hcon
    rw [List.mem_range] at h1 h2
    rw [List.mem_map] at hp hq
    obtain ⟨dx1, _, rfl⟩ := hp
    obtain ⟨dx2, _, rfl⟩ := hq
    have := congrArg Prod.snd hcon
    simp only [coord] at this
    exact absurd (emod_toNat_inj hH0 (lt_of_lt_of_le h1 hn)
      (lt_of_lt_of_le h2 hn) this) (by omega)

theorem cellAt_write_self {d : List (List ℤ)} {x y : ℕ} (v : ℤ)
    (hx : x < d.length) (hy : y < (d.getD x []).length) :
    cellAt (d.set x ((d.getD x []).set y v)) (x, y) = v := by
  rw [cellAt, getD_set_self hx, getD_set_self hy]

theorem cellAt_write_ne {d : List (List ℤ)} {x y : ℕ} (v : ℤ) {q : ℕ × ℕ}
    (hne : (x, y) ≠ q) :
    cellAt (d.set x ((d.getD x []).set y v)) q = cellAt d q := by
  rcases q with ⟨qx, qy⟩
  by_cases hqx : x = qx
  · have hqy : y ≠ qy := by
      intro hy
      exact hne (by rw [hqx, hy])
    rw [← hqx]
    by_cases hx : x < d.length
    · rw [cellAt, getD_set_self hx, getD_set_ne hqy]
      rfl
    · rw [cellAt, cellAt, List.set_eq_of_length_le (by omega)]
  · rw [cellAt, getD_set_ne hqx]
    rfl

/-- One draw-pixel step, computed: the cell at the wrapped coordinates is
XORed with the sprite bit, and `V[0xF]` is set to 1 on collision. -/
theorem draw_pixel_eq (W H : ℕ) (col row I_reg : ℤ) (mem : List ℤ)
    (V : List ℤ) (d : List (List ℤ)) (p : ℕ × ℕ)
    (hW : 0 < W) (hH : 0 < H) (hd : d.length = W)
    (hcols : ∀ c ∈ d, c.length = H) (hV : 15 < V.length)
    (hm : 0 ≤ I_reg + (p.1 : ℤ) ∧ I_reg + (p.1 : ℤ) < mem.length) :
    Cpu.draw_pixel W H col row I_reg mem (V, d) p =
      .ok (if cellAt d (coord W H col row p) = 1 ∧ spriteBit I_reg mem p = 1
             then V.set 15 1 else V,
           d.set (coord W H col row p).1
             ((d.getD (coord W H col row p).1 []).set (coord W H col row p).2
               (Int.xor (cellAt d (coord W H col row p))
                 (spriteBit I_reg mem p)))) := by
  have hWz : (0 : ℤ) < (W : ℤ) := by exact_mod_cast hW
  have hHz : (0 : ℤ) < (H : ℤ) := by exact_mod_cast hH
  have hx0 : 0 ≤ (col + (p.2 : ℤ)) % (W : ℤ) := Int.emod_nonneg _ (ne_of_gt hWz)
  have hx1 : (col + (p.2 : ℤ)) % (W : ℤ) < (d.length : ℤ) := by
    rw [hd]; exact Int.emod_lt_of_pos _ hWz
  have hy0 : 0 ≤ (row + (p.1 : ℤ)) % (H : ℤ) := Int.emod_nonneg _ (ne_of_gt hHz)
  have hcol_len : (d.getD ((col + (p.2 : ℤ)) % (W : ℤ)).toNat []).length = H := by
    have hlt : ((col + (p.2 : ℤ)) % (W : ℤ)).toNat < d.length := by omega
    rw [List.getD_eq_getElem _ _ hlt]
    exact hcols _ (List.getElem_mem _)
  have hy1 : (row + (p.1 : ℤ)) % (H : ℤ) <
      ((d.getD ((col + (p.2 : ℤ)) % (W : ℤ)).toNat []).length : ℤ) := by
    rw [hcol_len]; exact Int.emod_lt_of_pos _ hHz
  rw [Cpu.draw_pixel]
  simp only [show ((V, d).1) = V from rfl, show ((V, d).2) = d from rfl]
  rw [getIdx_eq hx0 hx1, ok_bind]
  simp only [show (default : List ℤ) = ([] : List ℤ) from rfl]
  rw [getIdx_eq hy0 hy1, ok_bind]
  rw [getIdx_eq hm.1 (by exact_mod_cast hm.2), ok_bind]
  simp only [show (default : ℤ) = (0 : ℤ) from rfl]
  rw [show (d.getD ((col + (p.2 : ℤ)) % (W : ℤ)).toNat []).getD
      ((row + (p.1 : ℤ)) % (H : ℤ)).toNat 0 = cellAt d (coord W H col row p)
    from rfl]
  rw [show bm.extract_bit (7 - p.2) (mem.getD (I_reg + (p.1 : ℤ)).toNat 0) =
      spriteBit I_reg mem p from rfl]
  split_ifs with hc
  · rw [setIdx_eq (show (0 : ℤ) ≤ 15 by norm_num)
      (show (15 : ℤ) < V.length by exact_mod_cast hV), ok_bind]
    rw [setIdx_eq hy0 hy1, ok_bind]
    rw [setIdx_eq hx0 hx1, ok_bind]
    rfl
  · rw [ok_bind]
    rw [setIdx_eq hy0 hy1, ok_bind]
    rw [setIdx_eq hx0 hx1, ok_bind]
    rfl

/-- Running the draw loop over a list of sprite offsets with pairwise
distinct target cells: every targeted cell is XORed with its sprite bit,
all other cells are untouched, and `V[0xF]` ends 1 exactly when some
targeted cell and its sprite bit were both 1 beforehand. -/
theorem draw_run (W H : ℕ) (col row I_reg : ℤ) (mem : List ℤ)
    (hW : 0 < W) (hH : 0 < H) (ps : List (ℕ × ℕ)) :
    ∀ (V : List ℤ) (d : List (List ℤ)),
      d.length = W → (∀ c ∈ d, c.length = H) → 15 < V.length →
      (∀ p ∈ ps, 0 ≤ I_reg + (p.1 : ℤ) ∧ I_reg + (p.1 : ℤ) < mem.length) →
      ps.Pairwise (fun p q => coord W H col row p ≠ coord W H col row q) →
      ∃ Vf df,
        List.foldlM (Cpu.draw_pixel W H col row I_reg mem) (V, d) ps =
          .ok (Vf, df) ∧
        Vf = (if ∃ p ∈ ps, cellAt d (coord W H col row p) = 1 ∧
                 spriteBit I_reg mem p = 1 then V.set 15 1 else V) ∧
        df.length = d.length ∧
        (∀ i, (df.getD i []).length = (d.getD i []).length) ∧
        (∀ p ∈ ps, cellAt df (coord W H col row p) =
          Int.xor (cellAt d (coord W H col row p)) (spriteBit I_reg mem p)) ∧
        (∀ c : ℕ × ℕ, (∀ p ∈ ps, coord W H col row p ≠ c) →
          cellAt df c = cellAt d c) := by
  induction ps with
  | nil =>
      intro V d hd hcols hV hmem hpw
      refine ⟨V, d, rfl, by simp, rfl, fun i => rfl, fun p hp => absurd hp (by simp),
        fun c _ => rfl⟩
  | cons p ps ih =>
      intro V d hd hcols hV hmem hpw
      rw [List.pairwise_cons] at hpw
      have hxlt : (coord W H col row p).1 < d.length := by
        have := Int.emod_lt_of_pos (col + (p.2 : ℤ))
          (show (0 : ℤ) < (W : ℤ) by exact_mod_cast hW)
        simp only [coord]
        omega
      have hylt : (coord W H col row p).2 <
          (d.getD (coord W H col row p).1 []).length := by
        have hcl : (d.getD (coord W H col row p).1 []).length = H := by
          rw [List.getD_eq_getElem _ _ hxlt]
          exact hcols _ (List.getElem_mem _)
        rw [hcl]
        have := Int.emod_lt_of_pos (row + (p.1 : ℤ))
          (show (0 : ℤ) < (H : ℤ) by exact_mod_cast hH)
        simp only [coord]
        omega
      rw [List.foldlM_cons]
      rw [draw_pixel_eq W H col row I_reg mem V d p hW hH hd hcols hV
        (hmem p (List.mem_cons_self ..)), ok_bind]
      set c0 := cellAt d (coord W H col row p) with hc0
      set b0 := spriteBit I_reg mem p with hb0
      set V1 := if c0 = 1 ∧ b0 = 1 then V.set 15 1 else V with hV1
      set d1 := d.set (coord W H col row p).1
        ((d.getD (coord W H col row p).1 []).set (coord W H col row p).2
          (Int.xor c0 b0)) with hd1
      have hd1_len : d1.length = d.length := List.length_set ..
      have hd1_cols : ∀ c ∈ d1, c.length = H := by
        intro c hc
        rcases List.mem_or_eq_of_mem_set hc with hc | rfl
        · exact hcols c hc
        · rw [List.length_set]
          rw [List.getD_eq_getElem _ _ hxlt]
          exact hcols _ (List.getElem_mem _)
      have hd1_coli : ∀ i, (d1.getD i []).length = (d.getD i []).length := by
        intro i
        by_cases hi : (coord W H col row p).1 = i
        · subst hi
          rw [hd1, getD_set_self hxlt, List.length_set]
        · rw [hd1, getD_set_ne hi]
      have hV1_len : 15 < V1.length := by
        rw [hV1]
        split <;> simp [hV]
      have htrans : ∀ q ∈ ps, cellAt d1 (coord W H col row q) =
          cellAt d (coord W H col row q) := by
        intro q hq
        rw [hd1]
        exact cellAt_write_ne _ (by rw [Prod.mk.eta]; exact hpw.1 q hq)
      obtain ⟨Vf, df, hfold, hVf, hdf_len, hdf_coli, hcells, huntouched⟩ :=
        ih V1 d1 (by rw [hd1_len, hd]) hd1_cols hV1_len
          (fun q hq => hmem q (List.mem_cons_of_mem _ hq)) hpw.2
      refine ⟨Vf, df, hfold, ?_, by rw [hdf_len, hd1_len],
        fun i => (hdf_coli i).trans (hd1_coli i), ?_, ?_⟩
      · rw [hVf]
        have hcond : (∃ q ∈ ps, cellAt d1 (coord W H col row q) = 1 ∧
            spriteBit I_reg mem q = 1) ↔
            (∃ q ∈ ps, cellAt d (coord W H col row q) = 1 ∧
              spriteBit I_reg mem q = 1) := by
          constructor
          · rintro ⟨q, hq, h1, h2⟩
            refine ⟨q, hq, ?_, h2⟩
            rw [← htrans q hq]
            exact h1
          · rintro ⟨q, hq, h1, h2⟩
            refine ⟨q, hq, ?_, h2⟩
            rw [htrans q hq]
            exact h1
        simp only [hcond, List.exists_mem_cons_iff, hV1, hc0, hb0]
        by_cases hU : cellAt d (coord W H col row p) = 1 ∧
          spriteBit I_reg mem p = 1
        · by_cases hA : ∃ q ∈ ps, cellAt d (coord W H col row q) = 1 ∧
              spriteBit I_reg mem q = 1
          · rw [if_pos hA, if_pos hU,
              if_pos (Or.inl hU :
                (cellAt d (coord W H col row p) = 1 ∧
                  spriteBit I_reg mem p = 1) ∨
                ∃ q ∈ ps, cellAt d (coord W H col row q) = 1 ∧
                  spriteBit I_reg mem q = 1),
              List.set_set]
          · rw [if_neg hA, if_pos hU,
              if_pos (Or.inl hU :
                (cellAt d (coord W H col row p) = 1 ∧
                  spriteBit I_reg mem p = 1) ∨
                ∃ q ∈ ps, cellAt d (coord W H col row q) = 1 ∧
                  spriteBit I_reg mem q = 1)]
        · by_cases hA : ∃ q ∈ ps, cellAt d (coord W H col row q) = 1 ∧
              spriteBit I_reg mem q = 1
          · rw [if_pos hA, if_neg hU,
              if_pos (Or.inr hA :
                (cellAt d (coord W H col row p) = 1 ∧
                  spriteBit I_reg mem p = 1) ∨
                ∃ q ∈ ps, cellAt d (coord W H col row q) = 1 ∧
                  spriteBit I_reg mem q = 1)]
          · rw [if_neg hA, if_neg hU,
              if_neg (by
                rintro (h | h)
                · exact hU h
                · exact hA h :
                ¬((cellAt d (coord W H col row p) = 1 ∧
                  spriteBit I_reg mem p = 1) ∨
                ∃ q ∈ ps, cellAt d (coord W H col row q) = 1 ∧
                  spriteBit I_reg mem q = 1))]
      · intro q hq
        rcases List.mem_cons.mp hq with rfl | hq
        · rw [huntouched _ (fun r hr => (hpw.1 r hr).symm), hd1]
          rw [← Prod.mk.eta (p := coord W H col row q)]
          exact cellAt_write_self _ hxlt hylt
        · rw [hcells q hq, htrans q hq]
      · intro c hc
        rw [huntouched c (fun q hq => hc q (List.mem_cons_of_mem _ hq))]
        rw [hd1]
        exact cellAt_write_ne _ (by rw [Prod.mk.eta]; exact hc p (List.mem_cons_self ..))

/-- The base column register value used by a draw: `V[x]` read after the
`V[0xF] = 0` reset. -/
def cbase (s : Cpu) : ℤ :=
  (s.V.set 15 0).getD (s.opcode % 0x1000 / 0x100).toNat 0

/-- The base row register value used by a draw: `V[y]` read after the
`V[0xF] = 0` reset. -/
def rbase (s : Cpu) : ℤ :=
  (s.V.set 15 0).getD (s.opcode % 0x100 / 0x10).toNat 0

/-- `display_sprite`, computed: `V[0xF]` is reset then set on collision,
every targeted cell is XORed with its sprite bit, all other cells are
unchanged, and the draw flag is raised. -/
theorem display_sprite_run (W H : ℕ) (s : Cpu)
    (hVlen : s.V.length = 16)
    (hdlen : s.display.length = W) (hcols : ∀ c ∈ s.display, c.length = H)
    (hW8 : 8 ≤ W) (hH : 0 < H)
    (hnH : (s.opcode % 0x10).toNat ≤ H)
    (hI : 0 ≤ s.I ∧ s.I + s.opcode % 0x10 ≤ s.memory.length) :
    ∃ Vf df,
      Cpu.display_sprite W H s = .ok { s with
        V := Vf, display := df, draw_flag := true } ∧
      ((∃ p ∈ Cpu.sprite_offsets (s.opcode % 0x10).toNat,
          cellAt s.display (coord W H (cbase s) (rbase s) p) = 1 ∧
          spriteBit s.I s.memory p = 1) → Vf = s.V.set 15 1) ∧
      (¬(∃ p ∈ Cpu.sprite_offsets (s.opcode % 0x10).toNat,
          cellAt s.display (coord W H (cbase s) (rbase s) p) = 1 ∧
          spriteBit s.I s.memory p = 1) → Vf = s.V.set 15 0) ∧
      df.length = W ∧
      (∀ i, (df.getD i []).length = (s.display.getD i []).length) ∧
      (∀ p ∈ Cpu.sprite_offsets (s.opcode % 0x10).toNat,
        cellAt df (coord W H (cbase s) (rbase s) p) =
          Int.xor (cellAt s.display (coord W H (cbase s) (rbase s) p))
            (spriteBit s.I s.memory p)) ∧
      (∀ c : ℕ × ℕ,
        (∀ p ∈ Cpu.sprite_offsets (s.opcode % 0x10).toNat,
          coord W H (cbase s) (rbase s) p ≠ c) →
        cellAt df c = cellAt s.display c) := by
  have hW : 0 < W := by omega
  have hx0 : 0 ≤ s.opcode % 0x1000 / 0x100 :=
    Int.ediv_nonneg (Int.emod_nonneg _ (by norm_num)) (by norm_num)
  have hx1 : s.opcode % 0x1000 / 0x100 < ((s.V.set 15 0).length : ℤ) := by
    rw [List.length_set, hVlen]
    have := Int.emod_lt_of_pos s.opcode (show (0 : ℤ) < 0x1000 by norm_num)
    have := Int.emod_nonneg s.opcode (show (0x1000 : ℤ) ≠ 0 by norm_num)
    omega
  have hy0 : 0 ≤ s.opcode % 0x100 / 0x10 :=
    Int.ediv_nonneg (Int.emod_nonneg _ (by norm_num)) (by norm_num)
  have hy1 : s.opcode % 0x100 / 0x10 < ((s.V.set 15 0).length : ℤ) := by
    rw [List.length_set, hVlen]
    have := Int.emod_lt_of_pos s.opcode (show (0 : ℤ) < 0x100 by norm_num)
    have := Int.emod_nonneg s.opcode (show (0x100 : ℤ) ≠ 0 by norm_num)
    omega
  have hmem : ∀ p ∈ Cpu.sprite_offsets (s.opcode % 0x10).toNat,
      0 ≤ s.I + (p.1 : ℤ) ∧ s.I + (p.1 : ℤ) < s.memory.length := by
    intro p hp
    have := (mem_sprite_offsets.mp hp).1
    constructor
    · omega
    · have h1 : (p.1 : ℤ) < s.opcode % 0x10 := by
        have h2 : 0 ≤ s.opcode % 0x10 := Int.emod_nonneg _ (by norm_num)
        omega
      omega
  obtain ⟨Vf, df, hfold, hVf, hdf_len, hdf_coli, hcells, huntouched⟩ :=
    draw_run W H (cbase s) (rbase s) s.I s.memory hW hH
      (Cpu.sprite_offsets (s.opcode % 0x10).toNat)
      (s.V.set 15 0) s.display (by rw [hdlen]) hcols
      (by rw [List.length_set, hVlen]; norm_num) hmem
      (sprite_offsets_coord_pairwise W H (s.opcode % 0x10).toNat
        (cbase s) (rbase s) hW8 hnH hW hH)
  rw [List.set_set] at hVf
  refine ⟨Vf, df, ?_, ?_, ?_, by rw [hdf_len, hdlen], hdf_coli, hcells,
    huntouched⟩
  · rw [Cpu.display_sprite]
    rw [setIdx_eq (show (0 : ℤ) ≤ 15 by norm_num)
      (show (15 : ℤ) < s.V.length by rw [hVlen]; norm_num), ok_bind]
    simp only [show Int.toNat 15 = 15 from rfl]
    rw [getIdx_eq hx0 hx1, ok_bind]
    rw [getIdx_eq hy0 hy1, ok_bind]
    simp only [show (default : ℤ) = (0 : ℤ) from rfl]
    rw [show (s.V.set 15 0).getD (s.opcode % 0x1000 / 0x100).toNat 0 = cbase s
      from rfl]
    rw [show (s.V.set 15 0).getD (s.opcode % 0x100 / 0x10).toNat 0 = rbase s
      from rfl]
    rw [hfold, ok_bind]
  · intro hA
    rw [hVf, if_pos hA]
  · intro hA
    rw [hVf, if_neg hA]

/-- C4 (amended): a draw-sprite step raises the draw flag (exactly once —
it is simply set to `true`), XORs each sprite bit into the display cell at
the wrapped coordinates, leaves all other cells untouched, and ends with
`V[0xF] = 1` exactly when some targeted pre-existing cell and its sprite
bit were both 1 (and `V[0xF] = 0` otherwise); the base coordinates are
the coordinate registers as read after the `V[0xF] = 0` reset (so a draw
whose coordinate register is `V[0xF]` itself uses base 0, not the
pre-instruction value). -/
theorem draw_sprite_step (W H : ℕ) (s : Cpu) (now : ℚ) (rnd hi lo : ℤ)
    (h1 : getIdx s.memory s.pc = .ok hi)
    (h2 : getIdx s.memory (s.pc + 1) = .ok lo)
    (hhi : 0xD0 ≤ hi ∧ hi ≤ 0xDF) (hlo : 0 ≤ lo ∧ lo < 256)
    (hVlen : s.V.length = 16)
    (hdlen : s.display.length = W) (hcols : ∀ c ∈ s.display, c.length = H)
    (hW8 : 8 ≤ W) (hH : 0 < H) (hnH : (lo % 0x10).toNat ≤ H)
    (hI : 0 ≤ s.I ∧ s.I + lo % 0x10 ≤ s.memory.length) :
    ∃ s', Cpu.execute_cycle W H s now rnd = .ok s' ∧
      s'.draw_flag = true ∧
      ((∃ p ∈ Cpu.sprite_offsets (lo % 0x10).toNat,
          cellAt s.display
            (coord W H ((s.V.set 15 0).getD (hi % 0x10).toNat 0)
              ((s.V.set 15 0).getD (lo / 0x10).toNat 0) p) = 1 ∧
          spriteBit s.I s.memory p = 1) → s'.V = s.V.set 15 1) ∧
      (¬(∃ p ∈ Cpu.sprite_offsets (lo % 0x10).toNat,
          cellAt s.display
            (coord W H ((s.V.set 15 0).getD (hi % 0x10).toNat 0)
              ((s.V.set 15 0).getD (lo / 0x10).toNat 0) p) = 1 ∧
          spriteBit s.I s.memory p = 1) → s'.V = s.V.set 15 0) ∧
      (∀ p ∈ Cpu.sprite_offsets (lo % 0x10).toNat,
        cellAt s'.display
            (coord W H ((s.V.set 15 0).getD (hi % 0x10).toNat 0)
              ((s.V.set 15 0).getD (lo / 0x10).toNat 0) p) =
          Int.xor (cellAt s.display
            (coord W H ((s.V.set 15 0).getD (hi % 0x10).toNat 0)
              ((s.V.set 15 0).getD (lo / 0x10).toNat 0) p))
            (spriteBit s.I s.memory p)) ∧
      (∀ c : ℕ × ℕ,
        (∀ p ∈ Cpu.sprite_offsets (lo % 0x10).toNat,
          coord W H ((s.V.set 15 0).getD (hi % 0x10).toNat 0)
            ((s.V.set 15 0).getD (lo / 0x10).toNat 0) p ≠ c) →
        cellAt s'.display c = cellAt s.display c) ∧
      s'.display.length = W := by
  have hcb : cbase { s with opcode := hi * 0x100 + lo } =
      (s.V.set 15 0).getD (hi % 0x10).toNat 0 := by
    rw [cbase]
    rw [show ({ s with opcode := hi * 0x100 + lo } : Cpu).opcode =
      hi * 0x100 + lo from rfl]
    rw [show ({ s with opcode := hi * 0x100 + lo } : Cpu).V = s.V from rfl]
    rw [show (hi * 0x100 + lo) % 0x1000 / 0x100 = hi % 0x10 from by omega]
  have hrb : rbase { s with opcode := hi * 0x100 + lo } =
      (s.V.set 15 0).getD (lo / 0x10).toNat 0 := by
    rw [rbase]
    rw [show ({ s with opcode := hi * 0x100 + lo } : Cpu).opcode =
      hi * 0x100 + lo from rfl]
    rw [show ({ s with opcode := hi * 0x100 + lo } : Cpu).V = s.V from rfl]
    rw [show (hi * 0x100 + lo) % 0x100 / 0x10 = lo / 0x10 from by omega]
  have hn : ({ s with opcode := hi * 0x100 + lo } : Cpu).opcode % 0x10 =
      lo % 0x10 := by
    rw [show ({ s with opcode := hi * 0x100 + lo } : Cpu).opcode =
      hi * 0x100 + lo from rfl]
    omega
  obtain ⟨Vf, df, hrun, hpos, hneg, hlen, hcoli, hcells, hunt⟩ :=
    display_sprite_run W H { s with opcode := hi * 0x100 + lo }
      hVlen hdlen hcols hW8 hH (by rw [hn]; exact hnH) (by rw [hn]; exact hI)
  rw [hcb, hrb, hn] at hpos hneg hcells hunt
  rw [Cpu.execute_cycle, h1, h2, ok_bind, ok_bind]
  have hop : (hi * 0x100 + lo) / 0x1000 = 0xD := by omega
  simp only [Cpu.dispatch, hop]
  rw [if_neg (by norm_num : ¬((0xD : ℤ) = 0x0)),
    if_neg (by norm_num : ¬((0xD : ℤ) = 0x1)),
    if_neg (by norm_num : ¬((0xD : ℤ) = 0x2)),
    if_neg (by norm_num : ¬((0xD : ℤ) = 0x3)),
    if_neg (by norm_num : ¬((0xD : ℤ) = 0x4)),
    if_neg (by norm_num : ¬((0xD : ℤ) = 0x5)),
    if_neg (by norm_num : ¬((0xD : ℤ) = 0x6)),
    if_neg (by norm_num : ¬((0xD : ℤ) = 0x7)),
    if_neg (by norm_num : ¬((0xD : ℤ) = 0x8)),
    if_neg (by norm_num : ¬((0xD : ℤ) = 0x9)),
    if_neg (by norm_num : ¬((0xD : ℤ) = 0xA)),
    if_neg (by norm_num : ¬((0xD : ℤ) = 0xB)),
    if_neg (by norm_num : ¬((0xD : ℤ) = 0xC)),
    if_pos (trivial : True)]
  rw [hrun, ok_bind]
  rw [if_pos (by norm_num : (0xD : ℤ) ≠ 0x1 ∧ (0xD : ℤ) ≠ 0x2)]
  refine ⟨_, rfl, ?_, ?_, ?_, ?_, ?_, ?_⟩
  · rw [decrement_timers_draw_flag]
  · intro hA
    rw [decrement_timers_V]
    exact hpos hA
  · intro hA
    rw [decrement_timers_V]
    exact hneg hA
  · intro p hp
    rw [decrement_timers_display]
    exact hcells p hp
  · intro c hc
    rw [decrement_timers_display]
    exact hunt c hc
  · rw [decrement_timers_display]
    exact hlen

/-- A state about to execute `0xDF01`: draw a 1-row sprite whose column
register is `V[0xF]` itself, with `V[0xF] = 8` before the instruction,
sprite byte `0x80` at `I = 2`, on a blank 16x1 display. -/
def c4_state : Cpu where
  memory := [0xDF, 0x01, 0x80]
  opcode := 0
  V := [0, 0, 0, 0, 0, 0, 0, 0, 0, 0, 0, 0, 0, 0, 0, 8]
  I := 2
  delay_timer := 0
  sound_timer := 0
  last_timer_decrement := 0
  pc := 0
  stack := []
  sp := 0
  keypad := []
  display := List.replicate 16 [0]
  draw_flag := false

/-- C4 counterexample: the base coordinates are NOT the pre-instruction
`(V[x], V[y])`.  `display_sprite` zeroes `V[0xF]` before reading the
coordinate registers, so `0xDF01` with `V[0xF] = 8` draws its set pixel
at column `0`, not at column `8` as the claim requires. -/
theorem draw_base_uses_reset_vf :
    (Cpu.execute_cycle 16 1 c4_state 0 0).toOption.map
      (fun s' => (cellAt s'.display (0, 0), cellAt s'.display (8, 0))) =
      some (1, 0) := by
  with_unfolding_all decide

/-- C4 witness: `draw_sprite_step` applied to the concrete state
`c4_state` (instruction `0xDF01`). -/
theorem draw_sprite_step_val :
    ∃ s', Cpu.execute_cycle 16 1 c4_state 0 0 = .ok s' ∧
      s'.draw_flag = true ∧
      ((∃ p ∈ Cpu.sprite_offsets ((0x01 : ℤ) % 0x10).toNat,
          cellAt c4_state.display
            (coord 16 1 ((c4_state.V.set 15 0).getD ((0xDF : ℤ) % 0x10).toNat 0)
              ((c4_state.V.set 15 0).getD ((0x01 : ℤ) / 0x10).toNat 0) p) = 1 ∧
          spriteBit c4_state.I c4_state.memory p = 1) →
        s'.V = c4_state.V.set 15 1) ∧
      (¬(∃ p ∈ Cpu.sprite_offsets ((0x01 : ℤ) % 0x10).toNat,
          cellAt c4_state.display
            (coord 16 1 ((c4_state.V.set 15 0).getD ((0xDF : ℤ) % 0x10).toNat 0)
              ((c4_state.V.set 15 0).getD ((0x01 : ℤ) / 0x10).toNat 0) p) = 1 ∧
          spriteBit c4_state.I c4_state.memory p = 1) →
        s'.V = c4_state.V.set 15 0) ∧
      (∀ p ∈ Cpu.sprite_offsets ((0x01 : ℤ) % 0x10).toNat,
        cellAt s'.display
            (coord 16 1 ((c4_state.V.set 15 0).getD ((0xDF : ℤ) % 0x10).toNat 0)
              ((c4_state.V.set 15 0).getD ((0x01 : ℤ) / 0x10).toNat 0) p) =
          Int.xor (cellAt c4_state.display
            (coord 16 1 ((c4_state.V.set 15 0).getD ((0xDF : ℤ) % 0x10).toNat 0)
              ((c4_state.V.set 15 0).getD ((0x01 : ℤ) / 0x10).toNat 0) p))
            (spriteBit c4_state.I c4_state.memory p)) ∧
      (∀ c : ℕ × ℕ,
        (∀ p ∈ Cpu.sprite_offsets ((0x01 : ℤ) % 0x10).toNat,
          coord 16 1 ((c4_state.V.set 15 0).getD ((0xDF : ℤ) % 0x10).toNat 0)
            ((c4_state.V.set 15 0).getD ((0x01 : ℤ) / 0x10).toNat 0) p ≠ c) →
        cellAt s'.display c = cellAt c4_state.display c) ∧
      s'.display.length = 16 :=
  draw_sprite_step 16 1 c4_state 0 0 0xDF 0x01
    (by with_unfolding_all rfl) (by with_unfolding_all rfl)
    (by norm_num) (by norm_num) rfl rfl
    (by decide) (by norm_num) (by norm_num) (by decide)
    (by with_unfolding_all decide)

/-- A grid (list of columns) is determined by its length, its column
lengths, and its cells. -/
theorem grid_ext (d1 d2 : List (List ℤ))
    (hlen : d1.length = d2.length)
    (hcol : ∀ i, (d1.getD i []).length = (d2.getD i []).length)
    (hcell : ∀ c : ℕ × ℕ, cellAt d1 c = cellAt d2 c) : d1 = d2 := by
  apply List.ext_getElem hlen
  intro i hi1 hi2
  apply List.ext_getElem
  · have h := hcol i
    rwa [List.getD_eq_getElem d1 [] hi1, List.getD_eq_getElem d2 [] hi2] at h
  · intro j hj1 hj2
    have h := hcell (i, j)
    rw [cellAt, cellAt] at h
    rwa [List.getD_eq_getElem d1 [] hi1, List.getD_eq_getElem d2 [] hi2,
      List.getD_eq_getElem _ _ hj1, List.getD_eq_getElem _ _ hj2] at h

/-- A full draw step, in equation form: the resulting state is the timer
check applied to the drawn state with `pc` advanced by 2; the final `V` is
the original with `V[0xF]` set to 0 or 1, and the display is transformed
cellwise as in `display_sprite_run`. -/
theorem draw_step_full (W H : ℕ) (s : Cpu) (now : ℚ) (rnd hi lo : ℤ)
    (h1 : getIdx s.memory s.pc = .ok hi)
    (h2 : getIdx s.memory (s.pc + 1) = .ok lo)
    (hhi : 0xD0 ≤ hi ∧ hi ≤ 0xDF) (hlo : 0 ≤ lo ∧ lo < 256)
    (hVlen : s.V.length = 16)
    (hdlen : s.display.length = W) (hcols : ∀ c ∈ s.display, c.length = H)
    (hW8 : 8 ≤ W) (hH : 0 < H) (hnH : (lo % 0x10).toNat ≤ H)
    (hI : 0 ≤ s.I ∧ s.I + lo % 0x10 ≤ s.memory.length) :
    ∃ Vf df,
      Cpu.execute_cycle W H s now rnd = .ok (Cpu.decrement_timers
        { s with
          opcode := hi * 0x100 + lo, V := Vf, display := df,
          draw_flag := true, pc := s.pc + 2 } now) ∧
      (Vf = s.V.set 15 0 ∨ Vf = s.V.set 15 1) ∧
      df.length = W ∧
      (∀ i, (df.getD i []).length = (s.display.getD i []).length) ∧
      (∀ p ∈ Cpu.sprite_offsets (lo % 0x10).toNat,
        cellAt df (coord W H ((s.V.set 15 0).getD (hi % 0x10).toNat 0)
            ((s.V.set 15 0).getD (lo / 0x10).toNat 0) p) =
          Int.xor (cellAt s.display
            (coord W H ((s.V.set 15 0).getD (hi % 0x10).toNat 0)
              ((s.V.set 15 0).getD (lo / 0x10).toNat 0) p))
            (spriteBit s.I s.memory p)) ∧
      (∀ c : ℕ × ℕ,
        (∀ p ∈ Cpu.sprite_offsets (lo % 0x10).toNat,
          coord W H ((s.V.set 15 0).getD (hi % 0x10).toNat 0)
            ((s.V.set 15 0).getD (lo / 0x10).toNat 0) p ≠ c) →
        cellAt df c = cellAt s.display c) := by
  have hcb : cbase { s with opcode := hi * 0x100 + lo } =
      (s.V.set 15 0).getD (hi % 0x10).toNat 0 := by
    rw [cbase]
    rw [show ({ s with opcode := hi * 0x100 + lo } : Cpu).opcode =
      hi * 0x100 + lo from rfl]
    rw [show ({ s with opcode := hi * 0x100 + lo } : Cpu).V = s.V from rfl]
    rw [show (hi * 0x100 + lo) % 0x1000 / 0x100 = hi % 0x10 from by omega]
  have hrb : rbase { s with opcode := hi * 0x100 + lo } =
      (s.V.set 15 0).getD (lo / 0x10).toNat 0 := by
    rw [rbase]
    rw [show ({ s with opcode := hi * 0x100 + lo } : Cpu).opcode =
      hi * 0x100 + lo from rfl]
    rw [show ({ s with opcode := hi * 0x100 + lo } : Cpu).V = s.V from rfl]
    rw [show (hi * 0x100 + lo) % 0x100 / 0x10 = lo / 0x10 from by omega]
  have hn : ({ s with opcode := hi * 0x100 + lo } : Cpu).opcode % 0x10 =
      lo % 0x10 := by
    rw [show ({ s with opcode := hi * 0x100 + lo } : Cpu).opcode =
      hi * 0x100 + lo from rfl]
    omega
  obtain ⟨Vf, df, hrun, hpos, hneg, hlen, hcoli, hcells, hunt⟩ :=
    display_sprite_run W H { s with opcode := hi * 0x100 + lo }
      hVlen hdlen hcols hW8 hH (by rw [hn]; exact hnH) (by rw [hn]; exact hI)
  rw [hcb, hrb, hn] at hpos hneg hcells hunt
  refine ⟨Vf, df, ?_, ?_, hlen, hcoli, hcells, hunt⟩
  · rw [Cpu.execute_cycle, h1, h2, ok_bind, ok_bind]
    have hop : (hi * 0x100 + lo) / 0x1000 = 0xD := by omega
    simp only [Cpu.dispatch, hop]
    rw [if_neg (by norm_num : ¬((0xD : ℤ) = 0x0)),
      if_neg (by norm_num : ¬((0xD : ℤ) = 0x1)),
      if_neg (by norm_num : ¬((0xD : ℤ) = 0x2)),
      if_neg (by norm_num : ¬((0xD : ℤ) = 0x3)),
      if_neg (by norm_num : ¬((0xD : ℤ) = 0x4)),
      if_neg (by norm_num : ¬((0xD : ℤ) = 0x5)),
      if_neg (by norm_num : ¬((0xD : ℤ) = 0x6)),
      if_neg (by norm_num : ¬((0xD : ℤ) = 0x7)),
      if_neg (by norm_num : ¬((0xD : ℤ) = 0x8)),
      if_neg (by norm_num : ¬((0xD : ℤ) = 0x9)),
      if_neg (by norm_num : ¬((0xD : ℤ) = 0xA)),
      if_neg (by norm_num : ¬((0xD : ℤ) = 0xB)),
      if_neg (by norm_num : ¬((0xD : ℤ) = 0xC)),
      if_pos (trivial : True)]
    rw [hrun, ok_bind]
    rw [if_pos (by norm_num : (0xD : ℤ) ≠ 0x1 ∧ (0xD : ℤ) ≠ 0x2)]
  · rcases Classical.em (∃ p ∈ Cpu.sprite_offsets (lo % 0x10).toNat,
        cellAt s.display
          (coord W H ((s.V.set 15 0).getD (hi % 0x10).toNat 0)
            ((s.V.set 15 0).getD (lo / 0x10).toNat 0) p) = 1 ∧
        spriteBit s.I s.memory p = 1) with hA | hA
    · exact Or.inr (hpos hA)
    · exact Or.inl (hneg hA)

/-- C9: XOR-draw idempotence — executing the same draw-sprite instruction
twice in succession (the same word fetched at `pc` and again at `pc + 2`,
with the same `I` and sprite bytes, which the step never modifies)
restores every display cell to its value before the first draw. -/
theorem draw_twice_restores_display (W H : ℕ) (s : Cpu)
    (now1 now2 : ℚ) (rnd1 rnd2 hi lo : ℤ)
    (h1 : getIdx s.memory s.pc = .ok hi)
    (h2 : getIdx s.memory (s.pc + 1) = .ok lo)
    (h3 : getIdx s.memory (s.pc + 2) = .ok hi)
    (h4 : getIdx s.memory (s.pc + 3) = .ok lo)
    (hhi : 0xD0 ≤ hi ∧ hi ≤ 0xDF) (hlo : 0 ≤ lo ∧ lo < 256)
    (hVlen : s.V.length = 16)
    (hdlen : s.display.length = W) (hcols : ∀ c ∈ s.display, c.length = H)
    (hW8 : 8 ≤ W) (hH : 0 < H) (hnH : (lo % 0x10).toNat ≤ H)
    (hI : 0 ≤ s.I ∧ s.I + lo % 0x10 ≤ s.memory.length) :
    ∃ s1 s2, Cpu.execute_cycle W H s now1 rnd1 = .ok s1 ∧
      Cpu.execute_cycle W H s1 now2 rnd2 = .ok s2 ∧
      s2.display = s.display := by
  obtain ⟨Vf, df, heq1, hVf01, hlen1, hcoli1, hcells1, hunt1⟩ :=
    draw_step_full W H s now1 rnd1 hi lo h1 h2 hhi hlo hVlen hdlen hcols
      hW8 hH hnH hI
  set s1 : Cpu := Cpu.decrement_timers
    { s with
      opcode := hi * 0x100 + lo, V := Vf, display := df,
      draw_flag := true, pc := s.pc + 2 } now1 with hs1
  have hm1 : s1.memory = s.memory := by
    rw [hs1]; exact decrement_timers_memory _ _
  have hpc1 : s1.pc = s.pc + 2 := by
    rw [hs1]; exact decrement_timers_pc _ _
  have hV1 : s1.V = Vf := by
    rw [hs1]; exact decrement_timers_V _ _
  have hI1 : s1.I = s.I := by
    rw [hs1]; exact decrement_timers_I _ _
  have hd1 : s1.display = df := by
    rw [hs1]; exact decrement_timers_display _ _
  have hVfLen : Vf.length = 16 := by
    rcases hVf01 with h | h <;> rw [h, List.length_set, hVlen]
  have hsetVf : Vf.set 15 0 = s.V.set 15 0 := by
    rcases hVf01 with h | h <;> rw [h, List.set_set]
  have hcolsdf : ∀ c ∈ df, c.length = H := by
    intro c hc
    obtain ⟨i, hilt, hieq⟩ := List.mem_iff_getElem.mp hc
    have hilt' : i < s.display.length := by
      rw [hdlen]; rw [hlen1] at hilt; exact hilt
    have h5 := hcoli1 i
    rw [List.getD_eq_getElem df [] hilt, hieq,
      List.getD_eq_getElem s.display [] hilt'] at h5
    rw [h5]
    exact hcols _ (List.getElem_mem hilt')
  obtain ⟨Vf2, df2, heq2, hVf012, hlen2, hcoli2, hcells2, hunt2⟩ :=
    draw_step_full W H s1 now2 rnd2 hi lo
      (by rw [hm1, hpc1]; exact h3)
      (by rw [hm1, hpc1, show s.pc + 2 + 1 = s.pc + 3 from by ring]; exact h4)
      hhi hlo
      (by rw [hV1]; exact hVfLen)
      (by rw [hd1]; exact hlen1)
      (by rw [hd1]; exact hcolsdf)
      hW8 hH hnH
      (by rw [hI1, hm1]; exact hI)
  refine ⟨s1, _, heq1, heq2, ?_⟩
  rw [decrement_timers_display]
  show df2 = s.display
  apply grid_ext
  · rw [hlen2, hdlen]
  · intro i
    have ha := hcoli2 i
    rw [hd1] at ha
    rw [ha]
    exact hcoli1 i
  · intro c
    by_cases hT : ∃ p ∈ Cpu.sprite_offsets (lo % 0x10).toNat,
        coord W H ((s.V.set 15 0).getD (hi % 0x10).toNat 0)
          ((s.V.set 15 0).getD (lo / 0x10).toNat 0) p = c
    · obtain ⟨p, hp, hpc2⟩ := hT
      rw [← hpc2]
      have hb := hcells2 p hp
      rw [hV1, hsetVf, hd1, hI1, hm1] at hb
      rw [hb, hcells1 p hp, int_xor_cancel]
    · push_neg at hT
      have hb := hunt2 c (by
        intro p hp
        rw [hV1, hsetVf]
        exact hT p hp)
      rw [hd1] at hb
      rw [hb]
      exact hunt1 c hT

/-- A state with the draw instruction `0xD011` (draw the 1-row sprite at
`(V[0], V[1])`) stored twice in a row, sprite byte `0xA5` at `I = 4`, and
a 16x1 display with some pixels lit. -/
def c9_state : Cpu where
  memory := [0xD0, 0x11, 0xD0, 0x11, 0xA5]
  opcode := 0
  V := [3, 0, 0, 0, 0, 0, 0, 0, 0, 0, 0, 0, 0, 0, 0, 0]
  I := 4
  delay_timer := 0
  sound_timer := 0
  last_timer_decrement := 0
  pc := 0
  stack := []
  sp := 0
  keypad := []
  display := [1] :: [1] :: [0] :: [1] :: List.replicate 12 [0]
  draw_flag := false

/-- C9 witness: `draw_twice_restores_display` applied to the concrete
state `c9_state`. -/
theorem draw_twice_restores_display_val :
    ∃ s1 s2, Cpu.execute_cycle 16 1 c9_state 0 0 = .ok s1 ∧
      Cpu.execute_cycle 16 1 s1 0 0 = .ok s2 ∧
      s2.display = c9_state.display :=
  draw_twice_restores_display 16 1 c9_state 0 0 0 0 0xD0 0x11
    (by with_unfolding_all rfl) (by with_unfolding_all rfl)
    (by with_unfolding_all rfl) (by with_unfolding_all rfl)
    (by norm_num) (by norm_num) rfl rfl
    (by decide) (by norm_num) (by norm_num) (by decide)
    (by with_unfolding_all decide)
